import Mathlib

/-!
Shallow embedding of the ledger engine of the Shaastra Food Coupons backend
(`src/routes/wallet.js`, `src/models/Transaction.js`).

Monetary quantities are modelled as exact rationals (`ℚ`): the JavaScript
code stores balances/amounts as IEEE doubles, but every claim under study is
about signs, sums and record contents, for which exact arithmetic is the
intended reading of the source's `+`/`-` on numbers.  `Number(amount)` can
produce any real value including zero and negatives; nothing in the routes
validates the sign of an amount, and the embedding keeps that behaviour.

Sequelize model instances are plain in-memory copies of a row:
`User.findByPk` and `User.findAll` return distinct copies even for the same
row, mutations touch only the copy, and `instance.save()` writes the copy's
current field values back to the row (last write wins).  The group-transfer
model below reproduces exactly that discipline, because the route mutates a
`sender` copy throughout its loop and saves it only once at the end.
-/

namespace ShaastraWallet

/-- One row of the `Users` table: internal key `id`, human-facing `userId`
(kept uppercase), display name, role string, and the wallet balance. -/
structure Account where
  id : Nat
  userId : String
  name : String
  role : String
  balance : ℚ
deriving Repr, DecidableEq

/-- The `type` ENUM of `models/Transaction.js`:
`ENUM('TRANSFER', 'TOPUP', 'ADMIN_RESET')` with `defaultValue: 'TRANSFER'`. -/
inductive TxType where
  | TRANSFER
  | TOPUP
  | ADMIN_RESET
deriving Repr, DecidableEq

/-- Wall-clock creation instant of a record, as the fields that
`toLocaleString` renders.  `key` below linearises it for `ORDER BY`. -/
structure DateTime where
  year : Nat
  month : Nat
  day : Nat
  hour : Nat
  minute : Nat
  second : Nat
deriving Repr, DecidableEq

/-- Chronological sort key of a timestamp (mixed-radix; later instants get
strictly larger keys). -/
def DateTime.key (d : DateTime) : Nat :=
  ((((d.year * 13 + d.month) * 32 + d.day) * 25 + d.hour) * 61 + d.minute) * 61 + d.second

/-- One row of the `Transactions` table (`models/Transaction.js`): sender and
receiver internal keys, name/identifier snapshots, amount, the classification
`type` (defaulting to `TRANSFER` exactly as the Sequelize model does when a
caller of `Transaction.create` passes no `type`), and creation timestamp. -/
structure TxRecord where
  senderId : Nat
  receiverId : Nat
  senderName : String
  receiverName : String
  senderUserId : String
  receiverUserId : String
  amount : ℚ
  type : TxType := .TRANSFER
  createdAt : DateTime
deriving Repr, DecidableEq

/-- The persistent store: the `Users` table and the append-only
`Transactions` table. -/
structure Db where
  users : List Account
  txns : List TxRecord
deriving Repr, DecidableEq

/-- JavaScript `s.toUpperCase()` on the identifiers used here (character-wise
ASCII uppercasing). -/
def jsToUpper (s : String) : String :=
  String.mk (s.toList.map Char.toUpper)

/-- JavaScript `s.toLowerCase()` (character-wise ASCII lowercasing). -/
def jsToLower (s : String) : String :=
  String.mk (s.toList.map Char.toLower)

/-- `User.findByPk(pk)`. -/
def findByPk (db : Db) (pk : Nat) : Option Account :=
  db.users.find? (fun u => u.id == pk)

/-- `User.findOne` with a `userId` where-clause — first row whose external
identifier matches. -/
def findByUserId (db : Db) (uid : String) : Option Account :=
  db.users.find? (fun u => u.userId == uid)

/-- Balance of the row an operation's `findByPk` would return (0 if absent;
used only where the row exists). -/
def getBalance (db : Db) (pk : Nat) : ℚ :=
  match findByPk db pk with
  | some u => u.balance
  | none => 0

/-- `instance.save()` for a balance change: write `bal` into every row whose
`id` matches (row keys are unique in any well-formed store). -/
def updateBalance (db : Db) (pk : Nat) (bal : ℚ) : Db :=
  { db with users := db.users.map (fun u => if u.id == pk then { u with balance := bal } else u) }

/-- Fetch-mutate-save of a single row by delta, the pattern
`u.balance += δ; await u.save()` performed on a fresh copy. -/
def creditUser (db : Db) (pk : Nat) (δ : ℚ) : Db :=
  { db with users := db.users.map (fun u => if u.id == pk then { u with balance := u.balance + δ } else u) }

/-- Sum of all wallet balances in the store. -/
def sumBalances (db : Db) : ℚ :=
  (db.users.map (fun u => u.balance)).sum

/-- Successful outcome of `POST /api/wallet/send`: the committed store, the
created record and the sender's new balance (the route returns
`newBalance: sender.balance` after the in-memory debit). -/
structure SendOk where
  db : Db
  record : TxRecord
  newBalance : ℚ
deriving Repr, DecidableEq

/-- The atomic unit of `POST /api/wallet/send` (`routes/wallet.js` lines
59–115).  The S-Pin presence/verification gate precedes this unit and never inspects
the amount.  A thrown error rolls the unit back, so the error branches return
the untouched store implicitly (no `Db` in the error).  Note that the only
amount check is `sender.balance < amount`; the sign of `amount` is never
validated. -/
def send (db : Db) (senderPk : Nat) (receiverId : String) (amount : ℚ)
    (now : DateTime) : Except String SendOk :=
  match findByPk db senderPk with
  | none => .error "Insufficient balance or user not found."
  | some sender =>
    if sender.balance < amount then
      .error "Insufficient balance or user not found."
    else
      match findByUserId db (jsToUpper receiverId) with
      | none => .error "Receiver not found."
      | some receiver =>
        if sender.id == receiver.id then
          .error "Cannot send money to yourself."
        else
          let db1 := creditUser db sender.id (-amount)
          let db2 := creditUser db1 receiver.id amount
          let rec0 : TxRecord :=
            { senderId := sender.id, receiverId := receiver.id
              senderName := sender.name, receiverName := receiver.name
              senderUserId := sender.userId, receiverUserId := receiver.userId
              amount := amount, createdAt := now }
          .ok { db := { db2 with txns := db2.txns ++ [rec0] }
                record := rec0
                newBalance := sender.balance - amount }

/-- The atomic unit of `POST /api/wallet/topup` (`routes/wallet.js` lines
258–279).  No amount validation of any kind: `user.balance += amount`
unconditionally, then one self-referential record is created with the fixed
sender-side labels.  The route passes no `type`, so the record carries the
model's default `TRANSFER`. -/
def topup (db : Db) (userPk : Nat) (amount : ℚ) (now : DateTime) :
    Except String (Db × TxRecord × ℚ) :=
  match findByPk db userPk with
  | none => .error "User not found."
  | some user =>
    let db1 := creditUser db user.id amount
    let rec0 : TxRecord :=
      { senderId := user.id, receiverId := user.id
        senderName := "Shaastra Finance", receiverName := user.name
        senderUserId := "FINANCE_TOPUP", receiverUserId := user.userId
        amount := amount, createdAt := now }
    .ok ({ db1 with txns := db1.txns ++ [rec0] }, rec0, user.balance + amount)

/-- In-memory state of the `for (const r of recipients)` loop of
`POST /api/wallet/send-group`: the mutable `sender` copy, the
`receiverMap` of receiver copies keyed by uppercased external identifier,
the store as mutated by the per-iteration `receiver.save` calls, and the
`transactionsToCreate` accumulator. -/
structure LoopSt where
  sender : Account
  rmap : List (String × Account)
  db : Db
  recs : List TxRecord
deriving Repr, DecidableEq

/-- `receiverMap.get(key)`. -/
def mapLookup (m : List (String × Account)) (k : String) : Option Account :=
  (m.find? (fun p => p.1 == k)).map (fun p => p.2)

/-- Overwrite the entry of key `k` with the mutated copy `v` (the JS map
holds one shared object per key; mutating it updates that entry). -/
def mapSet (m : List (String × Account)) (k : String) (v : Account) :
    List (String × Account) :=
  m.map (fun p => if p.1 == k then (k, v) else p)

/-- One iteration of the group-send loop (`routes/wallet.js` lines 351–375):
debit the sender copy in memory only, credit the shared receiver copy, save
the receiver copy (writing its accumulated balance to the store), and queue
the transaction row.  The `none` branch is unreachable: the loop runs only
after the missing-receiver check. -/
def groupStep (now : DateTime) (st : LoopSt) (r : String × ℚ) : LoopSt :=
  match mapLookup st.rmap (jsToUpper r.1) with
  | none => st
  | some rcv =>
    let sender1 := { st.sender with balance := st.sender.balance - r.2 }
    let rcv1 := { rcv with balance := rcv.balance + r.2 }
    let db1 := updateBalance st.db rcv.id rcv1.balance
    let rec0 : TxRecord :=
      { senderId := st.sender.id, receiverId := rcv.id
        senderName := st.sender.name, receiverName := rcv.name
        senderUserId := st.sender.userId, receiverUserId := rcv.userId
        amount := r.2, createdAt := now }
    { sender := sender1, rmap := mapSet st.rmap (jsToUpper r.1) rcv1
      db := db1, recs := st.recs ++ [rec0] }

/-- Outcome of one invocation of `POST /api/wallet/send-group`.  `events`
are the `transaction_received` socket emissions, which happen inside the
store transaction (after `bulkCreate`, before the final `sender.save`) and
are therefore never rolled back; on an abort `db` is the untouched store and
`records` is empty. -/
structure GroupResult where
  committed : Bool
  db : Db
  records : List TxRecord
  events : List (String × ℚ)
  errmsg : Option String
deriving Repr, DecidableEq

/-- `recipients.reduce((acc, r) => acc + r.amount, 0)` — the batch total. -/
def totalOf (recipients : List (String × ℚ)) : ℚ :=
  recipients.foldl (fun acc r => acc + r.2) 0

/-- The uppercased recipient identifiers that resolve to no account
(`receiverIds.filter(id => !receiverMap.has(id))`). -/
def missingOf (db : Db) (recipients : List (String × ℚ)) : List String :=
  (recipients.map (fun r => (jsToUpper r.1))).filter (fun i => (findByUserId db i).isNone)

/-- The `receiverMap`: one in-memory copy per distinct uppercased recipient
identifier, built by the batch `User.findAll` before the loop. -/
def rmapInit (db : Db) (recipients : List (String × ℚ)) : List (String × Account) :=
  ((recipients.map (fun r => jsToUpper r.1)).dedup).filterMap
    (fun k => (findByUserId db k).map (fun a => (k, a)))

/-- The loop state after running the whole recipient loop from the initial
copies. -/
def groupLoopRun (db : Db) (sender : Account) (recipients : List (String × ℚ))
    (now : DateTime) : LoopSt :=
  recipients.foldl (groupStep now) (LoopSt.mk sender (rmapInit db recipients) db [])

/-- The socket events the route emits: one `transaction_received` per
recipient entry whose receiver is online, reading the receiver from the
`receiverMap`. -/
def eventsInit (db : Db) (recipients : List (String × ℚ)) (online : String → Bool) :
    List (String × ℚ) :=
  recipients.filterMap (fun r =>
    match mapLookup (rmapInit db recipients) (jsToUpper r.1) with
    | some rcv => if online rcv.userId then some (rcv.userId, r.2) else none
    | none => none)

/-- The atomic unit of `POST /api/wallet/send-group` (`routes/wallet.js`
lines 311–410).  `online` models the `onlineUsers` registry; `senderSaveOk`
models whether the final `sender.save` (and commit) succeeds — when it
fails, the store transaction rolls back but the already-emitted socket
events stand.  Checks happen in source order: total-balance first, then the
all-missing-receivers collection; amounts are never sign-checked.  The
sender copy is saved only once, after the loop and the notifications, so its
write is the last one on the sender's row. -/
def sendGroup (db : Db) (senderPk : Nat) (recipients : List (String × ℚ))
    (now : DateTime) (online : String → Bool) (senderSaveOk : Bool) : GroupResult :=
  match findByPk db senderPk with
  | none => ⟨false, db, [], [], some "Insufficient balance for group transaction."⟩
  | some sender =>
    if sender.balance < totalOf recipients then
      ⟨false, db, [], [], some "Insufficient balance for group transaction."⟩
    else
      let missing := missingOf db recipients
      if !missing.isEmpty then
        ⟨false, db, [], [],
          some ("Receiver(s) not found: " ++ String.intercalate ", " missing)⟩
      else
        let st := groupLoopRun db sender recipients now
        let db1 := { st.db with txns := st.db.txns ++ st.recs }
        let events := eventsInit db recipients online
        if senderSaveOk then
          ⟨true, updateBalance db1 st.sender.id st.sender.balance, st.recs, events, none⟩
        else
          ⟨false, db, [], events, some "Group transaction failed at final save."⟩

/-- Contiguous-sublist test on character lists. -/
def infixOfChars : List Char → List Char → Bool
  | needle, [] => needle.isEmpty
  | needle, c :: cs => needle.isPrefixOf (c :: cs) || infixOfChars needle cs

/-- Case-insensitive substring match, modelling Sequelize `iLike` with a
`%pat%` pattern. -/
def jsILike (field pat : String) : Bool :=
  infixOfChars (jsToLower pat).toList (jsToLower field).toList

/-- The where-clause of `GET /api/wallet/history` (`routes/wallet.js` lines
148–206): principal involvement, optional free-text search over the four
snapshot fields, optional inclusive date range, and the type filter —
`sent`/`received` conjoin a `NOT senderId = receiverId` condition, `topup`
requires both keys to equal the principal, any other string adds nothing. -/
def historyWhere (uid : Nat) (search : String) (dateRange : Option (Nat × Nat))
    (txType : Option String) (tx : TxRecord) : Bool :=
  (tx.senderId == uid || tx.receiverId == uid)
  && (search == ""
      || jsILike tx.senderName search || jsILike tx.receiverName search
      || jsILike tx.senderUserId search || jsILike tx.receiverUserId search)
  && (match dateRange with
      | none => true
      | some se =>
        decide (se.1 ≤ tx.createdAt.key) && decide (tx.createdAt.key ≤ se.2))
  && (match txType with
      | none => true
      | some t =>
        if t == "sent" then tx.senderId == uid && !(tx.senderId == tx.receiverId)
        else if t == "received" then tx.receiverId == uid && !(tx.senderId == tx.receiverId)
        else if t == "topup" then tx.senderId == uid && tx.receiverId == uid
        else true)

/-- `parseInt(req.query.page) || 1`: absent/unparsable (`none`) and `0` fall
back to 1; every other integer, including negatives, passes through. -/
def effPage (q : Option Int) : Int :=
  match q with
  | none => 1
  | some n => if n = 0 then 1 else n

/-- `parseInt(req.query.limit) || 20`: absent/unparsable and `0` fall back
to 20; every other integer passes through — the route applies no upper
bound. -/
def effLimit (q : Option Int) : Int :=
  match q with
  | none => 20
  | some n => if n = 0 then 20 else n

/-- Newest-first comparison used by `ORDER BY createdAt DESC`. -/
def txLe (a b : TxRecord) : Prop :=
  b.createdAt.key ≤ a.createdAt.key

instance : DecidableRel txLe := fun _ _ => Nat.decLe _ _

instance : IsTotal TxRecord txLe :=
  ⟨fun a b => Nat.le_total b.createdAt.key a.createdAt.key⟩

instance : IsTrans TxRecord txLe :=
  ⟨fun _ _ _ h h2 => Nat.le_trans h2 h⟩

/-- The store's `ORDER BY createdAt DESC`. -/
def sortDesc (l : List TxRecord) : List TxRecord :=
  List.insertionSort txLe l

/-- `Transaction.findAndCountAll` of `GET /api/wallet/history`: filter,
order newest-first, then apply `offset = (page − 1) * limit` and `limit`
verbatim. -/
def historyRows (db : Db) (uid : Nat) (search : String)
    (dateRange : Option (Nat × Nat)) (txType : Option String)
    (pageQ limitQ : Option Int) : List TxRecord :=
  let page := effPage pageQ
  let limit := effLimit limitQ
  let offset := (page - 1) * limit
  ((sortDesc (db.txns.filter (historyWhere uid search dateRange txType))).drop
    offset.toNat).take limit.toNat

/-- Decimal digit character. -/
def digitChar (n : Nat) : Char :=
  match n with
  | 0 => '0' | 1 => '1' | 2 => '2' | 3 => '3' | 4 => '4'
  | 5 => '5' | 6 => '6' | 7 => '7' | 8 => '8' | _ => '9'

/-- Decimal digits of `n`, most significant first (fuel-structural so that it
reduces definitionally; `fuel ≥ 1` digits suffice for `n < 10 ^ fuel`). -/
def natDigits : Nat → Nat → List Char
  | 0, _ => []
  | fuel + 1, n =>
    if n < 10 then [digitChar n]
    else natDigits fuel (n / 10) ++ [digitChar (n % 10)]

/-- Decimal rendering of a natural number (the digit shape JavaScript prints
for the integers appearing here). -/
def natToStr (n : Nat) : String :=
  String.mk (natDigits (n + 1) n)

/-- The `2-digit` padding of `toLocaleString`. -/
def pad2 (n : Nat) : String :=
  if n < 10 then "0" ++ natToStr n else natToStr n

/-- JavaScript `x.toFixed(2)` on the exact value: round to the nearest
hundredth and print with two decimals and a leading minus for negatives. -/
def toFixed2 (q : ℚ) : String :=
  let x : ℚ := q * 100 + 1 / 2
  let c : Int := Int.fdiv x.num (x.den : Int)
  if c < 0 then
    "-" ++ natToStr ((-c).toNat / 100) ++ "." ++ pad2 ((-c).toNat % 100)
  else
    natToStr (c.toNat / 100) ++ "." ++ pad2 (c.toNat % 100)

/-- `new Date(tx.createdAt).toLocaleString('en-IN', ...)` with `numeric`
year and `2-digit` day/month/hour/minute/second: Node renders
`dd/mm/yyyy, hh:mm:ss am|pm` — the date and the time are separated by a
comma and a space, and the clock is 12-hour. -/
def formatEnIN (d : DateTime) : String :=
  let r := d.hour % 12
  let h12 := if r == 0 then 12 else r
  pad2 d.day ++ "/" ++ pad2 d.month ++ "/" ++ natToStr d.year ++ ", "
    ++ pad2 h12 ++ ":" ++ pad2 d.minute ++ ":" ++ pad2 d.second ++ " "
    ++ (if d.hour < 12 then "am" else "pm")

/-- `s.replace(/"/g, '\x22\x22')`: double every quote character. -/
def escQuotes (s : String) : String :=
  String.mk (s.toList.foldr
    (fun c acc => if c == '"' then '"' :: '"' :: acc else c :: acc) [])

/-- The one escaping step of the download route: wrap the counterparty name
in quotes with inner quotes doubled (`routes/wallet.js` line 533). -/
def csvEscape (s : String) : String :=
  "\"" ++ escQuotes s ++ "\""

/-- One data row of `GET /api/wallet/history/download`
(`routes/wallet.js` lines 497–536).  Only the counterparty name passes
through `csvEscape`; the date, type, counterparty identifier and the two
amount fields are concatenated verbatim. -/
def csvRow (viewer : Account) (tx : TxRecord) : String :=
  let isSender := tx.senderUserId == viewer.userId
  let isTopUp := tx.senderUserId == tx.receiverUserId
  let ty := if isTopUp then "Top-Up" else if isSender then "Sent" else "Received"
  let counterparty :=
    if isTopUp then "System" else if isSender then tx.receiverName else tx.senderName
  let counterpartyId :=
    if isTopUp then "SYSTEM" else if isSender then tx.receiverUserId else tx.senderUserId
  let balanceChange :=
    if isTopUp then "+" ++ toFixed2 tx.amount
    else if isSender then "-" ++ toFixed2 tx.amount
    else "+" ++ toFixed2 tx.amount
  formatEnIN tx.createdAt ++ "," ++ ty ++ "," ++ csvEscape counterparty ++ ","
    ++ counterpartyId ++ ",₹" ++ toFixed2 tx.amount ++ ",₹" ++ balanceChange

/-- The header row of the download (without its trailing newline). -/
def csvHeaderLine : String :=
  "Date & Time,Type,Counterparty,Counterparty ID,Amount,Balance Change"

/-- The full CSV payload: header with trailing newline, then the data rows
joined by newlines. -/
def csvContent (viewer : Account) (txs : List TxRecord) : String :=
  csvHeaderLine ++ "\n" ++ String.intercalate "\n" (txs.map (csvRow viewer))

/-- `GET /api/wallet/history/download`: Vendor-only, same filters as the
history endpoint, no pagination, newest-first. -/
def historyDownload (db : Db) (viewerPk : Nat) (search : String)
    (dateRange : Option (Nat × Nat)) (txType : Option String) :
    Except String String :=
  match findByPk db viewerPk with
  | none => .error "Server error downloading transactions."
  | some user =>
    if !(user.role == "Vendor") then
      .error "This feature is only available for Vendors."
    else
      .ok (csvContent user
        (sortDesc (db.txns.filter (historyWhere viewerPk search dateRange txType))))

/-- Number of comma separators read by a standard (RFC-4180-style) CSV
parser: commas inside a quoted region do not separate fields, a quote
toggles the quoted region (a doubled quote toggles twice, i.e. stays
inside). -/
def sepCount : List Char → Bool → Nat
  | [], _ => 0
  | c :: cs, inQ =>
    if c == '"' then sepCount cs (!inQ)
    else if c == ',' && !inQ then sepCount cs inQ + 1
    else sepCount cs inQ

/-- Quoted-region state after reading the characters. -/
def endState : List Char → Bool → Bool
  | [], q => q
  | c :: cs, q => endState cs (if c == '"' then !q else q)

/-- Number of columns a standard CSV parser reads from one line. -/
def csvFieldCount (s : String) : Nat :=
  sepCount s.toList false + 1

/-- Substring test on strings (used to state that an error message names an
identifier). -/
def containsStr (hay needle : String) : Bool :=
  infixOfChars needle.toList hay.toList

/-! Derived characterizations used to state and prove properties of the
group-send loop.  These are not embeddings of further source code; they name
the states the loop passes through. -/

/-- Total amount addressed to the (uppercased) identifier `k` across all of
its occurrences in the recipient list. -/
def creditsFor (k : String) (rc : List (String × ℚ)) : ℚ :=
  ((rc.filter (fun r => jsToUpper r.1 == k)).map (fun r => r.2)).sum

/-- A row after receiving all credits addressed to its identifier. -/
def addCred (rc : List (String × ℚ)) (u : Account) : Account :=
  { u with balance := u.balance + creditsFor u.userId rc }

/-- The record the loop queues for one recipient entry. -/
def groupRec (sender a : Account) (amt : ℚ) (now : DateTime) : TxRecord :=
  { senderId := sender.id, receiverId := a.id
    senderName := sender.name, receiverName := a.name
    senderUserId := sender.userId, receiverUserId := a.userId
    amount := amt, createdAt := now }

/-- The records the loop has queued after processing the prefix `P`. -/
def recsOf (db : Db) (sender : Account) (P : List (String × ℚ)) (now : DateTime) :
    List TxRecord :=
  P.filterMap (fun r => (findByUserId db (jsToUpper r.1)).map
    (fun a => groupRec sender a r.2 now))

/-- The socket events the route emits for a recipient list (one per entry
whose receiver is online). -/
def eventsOf (db : Db) (rc : List (String × ℚ)) (online : String → Bool) :
    List (String × ℚ) :=
  rc.filterMap (fun r =>
    match findByUserId db (jsToUpper r.1) with
    | some a => if online a.userId then some (a.userId, r.2) else none
    | none => none)

/-- The receiver map after the prefix `P` of the loop: each copy carries the
credits addressed to its key so far. -/
def rmapOf (db : Db) (ks : List String) (P : List (String × ℚ)) :
    List (String × Account) :=
  ks.dedup.filterMap (fun k => (findByUserId db k).map
    (fun a => (k, { a with balance := a.balance + creditsFor k P })))

/-- The store after the per-iteration receiver saves of the prefix `P`. -/
def dbCredited (db : Db) (P : List (String × ℚ)) : Db :=
  { db with users := db.users.map (fun u => { u with balance := u.balance + creditsFor u.userId P }) }

/-- The full loop state after processing the prefix `P`. -/
def loopStOf (db : Db) (sender : Account) (ks : List String) (now : DateTime)
    (P : List (String × ℚ)) : LoopSt :=
  { sender := { sender with balance := sender.balance - totalOf P }
    rmap := rmapOf db ks P
    db := dbCredited db P
    recs := recsOf db sender P now }

/-- Field content that needs no CSV escaping: no delimiter, no quote. -/
def plainCsv (s : String) : Bool :=
  s.toList.all (fun c => !(c == ',') && !(c == '"'))

/-! Concrete stores used by counterexamples and witnesses. -/

/-- A Core member with balance 10. -/
def alice : Account := ⟨1, "AA11A111", "Alice", "Core", 10⟩

/-- A Vendor with balance 2. -/
def bob : Account := ⟨2, "BB22B222", "Bob", "Vendor", 2⟩

/-- A two-account store with an empty ledger. -/
def demoDb : Db := ⟨[alice, bob], []⟩

/-- A fixed request instant. -/
def demoNow : DateTime := ⟨2026, 1, 15, 14, 30, 5⟩

/-- A Core member with balance 100, used for the self-addressed group send. -/
def coreA : Account := ⟨1, "CC33C333", "Core A", "Core", 100⟩

/-- A one-account store. -/
def dbSelf : Db := ⟨[coreA], []⟩

/-- A transaction record whose receiver identifier embeds a comma. -/
def commaTx : TxRecord :=
  ⟨1, 2, "Alice", "Bob", "AA11A111", "BB,22B222", 5, .TRANSFER, demoNow⟩

/-- An ordinary transfer record sent by account 1. -/
def sentTx : TxRecord :=
  ⟨1, 2, "Alice", "Bob", "AA11A111", "BB22B222", 5, .TRANSFER, demoNow⟩

/-- An ordinary transfer record received by account 1. -/
def recvTx : TxRecord :=
  ⟨2, 1, "Bob", "Alice", "BB22B222", "AA11A111", 4, .TRANSFER, demoNow⟩

/-- A self-referential top-up record of account 1. -/
def topupTx : TxRecord :=
  ⟨1, 1, "Shaastra Finance", "Alice", "FINANCE_TOPUP", "AA11A111", 9, .TRANSFER, demoNow⟩

/-- The record a transfer of 3 from Alice to Bob creates. -/
def wRec : TxRecord :=
  ⟨alice.id, bob.id, alice.name, bob.name, alice.userId, bob.userId, 3, .TRANSFER, demoNow⟩

/-- The outcome of that transfer. -/
def wOut : SendOk :=
  ⟨{ creditUser (creditUser demoDb alice.id (-3)) bob.id 3 with
      txns := demoDb.txns ++ [wRec] }, wRec, alice.balance - 3⟩

/-- The record a top-up of 7 on Alice creates. -/
def wTopRec : TxRecord :=
  ⟨alice.id, alice.id, "Shaastra Finance", alice.name, "FINANCE_TOPUP", alice.userId, 7,
    .TRANSFER, demoNow⟩

/-- The store after that top-up. -/
def wTopDb : Db :=
  { creditUser demoDb alice.id 7 with txns := demoDb.txns ++ [wTopRec] }

/-!
Theorems.  Each claim of the specification review is settled below; helper
lemmas are shared across claims.
-/

/-- Branch characterization: the sender row does not resolve. -/
theorem sendGroup_eq_noSender (db : Db) (pk : Nat) (rc : List (String × ℚ))
    (now : DateTime) (online : String → Bool) (ssOk : Bool)
    (hpk : findByPk db pk = none) :
    sendGroup db pk rc now online ssOk
      = ⟨false, db, [], [], some "Insufficient balance for group transaction."⟩ := by
  rw [sendGroup, hpk]

/-- Branch characterization: the pre-operation balance does not cover the
batch total. -/
theorem sendGroup_eq_insufficient (db : Db) (pk : Nat) (rc : List (String × ℚ))
    (now : DateTime) (online : String → Bool) (ssOk : Bool) (sender : Account)
    (hpk : findByPk db pk = some sender) (hb : sender.balance < totalOf rc) :
    sendGroup db pk rc now online ssOk
      = ⟨false, db, [], [], some "Insufficient balance for group transaction."⟩ := by
  rw [sendGroup]
  simp only [hpk, if_pos hb]

/-- Branch characterization: at least one receiver identifier is missing
(and the balance check has passed). -/
theorem sendGroup_eq_missing (db : Db) (pk : Nat) (rc : List (String × ℚ))
    (now : DateTime) (online : String → Bool) (ssOk : Bool) (sender : Account)
    (hpk : findByPk db pk = some sender) (hb : ¬ sender.balance < totalOf rc)
    (hm : (missingOf db rc).isEmpty = false) :
    sendGroup db pk rc now online ssOk
      = ⟨false, db, [], [],
          some ("Receiver(s) not found: " ++ String.intercalate ", " (missingOf db rc))⟩ := by
  rw [sendGroup]
  simp only [hpk, if_neg hb, hm, Bool.not_false, Bool.not_true, if_true, if_false,
    Bool.false_eq_true, Bool.true_eq_false, ite_true, ite_false, reduceIte]

/-- Branch characterization: all checks pass and the final save succeeds. -/
theorem sendGroup_eq_commit (db : Db) (pk : Nat) (rc : List (String × ℚ))
    (now : DateTime) (online : String → Bool) (sender : Account)
    (hpk : findByPk db pk = some sender) (hb : ¬ sender.balance < totalOf rc)
    (hm : (missingOf db rc).isEmpty = true) :
    sendGroup db pk rc now online true
      = ⟨true,
          updateBalance
            { (groupLoopRun db sender rc now).db with
                txns := (groupLoopRun db sender rc now).db.txns
                  ++ (groupLoopRun db sender rc now).recs }
            (groupLoopRun db sender rc now).sender.id
            (groupLoopRun db sender rc now).sender.balance,
          (groupLoopRun db sender rc now).recs,
          eventsInit db rc online, none⟩ := by
  rw [sendGroup]
  simp only [hpk, if_neg hb, hm, Bool.not_false, Bool.not_true, if_true, if_false,
    Bool.false_eq_true, Bool.true_eq_false, ite_true, ite_false, reduceIte]

/-- Branch characterization: all checks pass but the final `sender.save`
fails — the store rolls back while the events have been emitted. -/
theorem sendGroup_eq_saveFail (db : Db) (pk : Nat) (rc : List (String × ℚ))
    (now : DateTime) (online : String → Bool) (sender : Account)
    (hpk : findByPk db pk = some sender) (hb : ¬ sender.balance < totalOf rc)
    (hm : (missingOf db rc).isEmpty = true) :
    sendGroup db pk rc now online false
      = ⟨false, db, [], eventsInit db rc online,
          some "Group transaction failed at final save."⟩ := by
  rw [sendGroup]
  simp only [hpk, if_neg hb, hm, Bool.not_false, Bool.not_true, if_true, if_false,
    Bool.false_eq_true, Bool.true_eq_false, ite_true, ite_false, reduceIte]

/-- C1: the claim says every committed ledger operation leaves every balance
non-negative, for every request amount including negatives.  The code
violates it: `/send` only checks `sender.balance < amount`, so a negative
amount passes the check, is committed, and acts as a reverse transfer that
drives the receiver's balance below zero.  Here Alice (balance 10) sends
amount −5 to Bob (balance 2): the operation commits and Bob ends at −3. -/
theorem send_negative_amount_commits_receiver_goes_negative :
    (send demoDb 1 "BB22B222" (-5) demoNow).map (fun s => getBalance s.db 2) = .ok (-3)
      ∧ ((-3 : ℚ) < 0) := by
  have hu : jsToUpper "BB22B222" = "BB22B222" := rfl
  have hne : ("AA11A111" == "BB22B222") = false := rfl
  have heq : ("BB22B222" == "BB22B222") = true := rfl
  have h12 : (1 == 2) = false := rfl
  have h22 : (2 == 2) = true := rfl
  refine ⟨?_, by norm_num⟩
  norm_num [send, demoDb, alice, bob, findByPk, findByUserId, hu, hne, heq, h12, h22,
    creditUser, getBalance, Except.map, List.find?]

/-- C4: the claim says non-positive or malformed amounts are rejected as a
validation error before any store access.  The code has no amount validation
at all: a `/topup` of −50 with a valid S-Pin reaches the store, commits a
balance write (10 − 50 = −40) and creates a transaction record. -/
theorem topup_negative_amount_reaches_store_and_commits :
    (topup demoDb 1 (-50) demoNow).map (fun r => (getBalance r.1 1, r.1.txns.length))
      = .ok (-40, 1) ∧ ((-40 : ℚ) < 0) := by
  refine ⟨?_, by norm_num⟩
  norm_num [topup, demoDb, alice, bob, findByPk, creditUser, getBalance, Except.map,
    List.find?]

/-- C6 counterexample: the claim says the top-up record's classification tag
is "top-up", distinct from the ordinary-transfer tag.  The route passes no
`type` to `Transaction.create`, so the record carries the model's default
`TRANSFER` — the very tag of an ordinary transfer. -/
theorem topup_record_carries_transfer_tag :
    (topup demoDb 1 500 demoNow).map (fun r => r.2.1.type) = .ok TxType.TRANSFER
      ∧ TxType.TRANSFER ≠ TxType.TOPUP := by
  refine ⟨?_, by decide⟩
  norm_num [topup, demoDb, alice, findByPk, Except.map, List.find?]

/-- C6 amended: every committed top-up creates exactly one self-referential
record whose sender-side snapshot is the fixed system label
("Shaastra Finance" / "FINANCE_TOPUP", not the acting principal's own
name/identifier), but its classification `type` is the default `TRANSFER`,
not `TOPUP`; the top-up nature is expressed only by `senderId = receiverId`. -/
theorem topup_creates_one_selfref_system_labelled_record
    (db : Db) (pk : Nat) (a : ℚ) (now : DateTime) (user : Account)
    (hu : findByPk db pk = some user) :
    ∃ db1 rec nb, topup db pk a now = .ok (db1, rec, nb)
      ∧ db1.txns = db.txns ++ [rec]
      ∧ rec.senderId = user.id ∧ rec.receiverId = user.id
      ∧ rec.senderName = "Shaastra Finance" ∧ rec.senderUserId = "FINANCE_TOPUP"
      ∧ rec.receiverName = user.name ∧ rec.receiverUserId = user.userId
      ∧ rec.amount = a ∧ rec.type = TxType.TRANSFER
      ∧ nb = user.balance + a := by
  simp only [topup, hu]
  exact ⟨_, _, _, rfl, rfl, rfl, rfl, rfl, rfl, rfl, rfl, rfl, rfl, rfl⟩

/-- Witness for the amended C6 theorem at a concrete store. -/
theorem topup_creates_one_selfref_system_labelled_record_witness :
    ∃ db1 rec nb, topup demoDb 1 7 demoNow = .ok (db1, rec, nb)
      ∧ db1.txns = demoDb.txns ++ [rec]
      ∧ rec.senderId = alice.id ∧ rec.receiverId = alice.id
      ∧ rec.senderName = "Shaastra Finance" ∧ rec.senderUserId = "FINANCE_TOPUP"
      ∧ rec.receiverName = alice.name ∧ rec.receiverUserId = alice.userId
      ∧ rec.amount = 7 ∧ rec.type = TxType.TRANSFER
      ∧ nb = alice.balance + 7 :=
  topup_creates_one_selfref_system_labelled_record demoDb 1 7 demoNow alice rfl

/-- C7 counterexample: the claim says the effective page size is bounded
above by a fixed maximum for every caller-supplied limit.  It is not:
`parseInt(req.query.limit) || 20` passes any nonzero integer through
unchanged — a caller-supplied limit of one billion is applied verbatim,
more than a million times the default page size. -/
theorem history_limit_exceeds_every_fixed_bound :
    effLimit (some 1000000000) = 1000000000
      ∧ 1000000 * effLimit none < effLimit (some 1000000000) := by
  constructor
  · rw [effLimit, if_neg (by norm_num)]
  · rw [effLimit, effLimit, if_neg (by norm_num)]
    norm_num

/-- C7 amended: the history page is ordered newest-first and page/limit are
caller-configurable with defaults 20 and 1 (absent, unparsable or zero
values fall back), but any nonzero caller value — of any size — is used
as-is; there is no upper bound on the page size. -/
theorem history_sorted_and_configurable
    (db : Db) (uid : Nat) (search : String) (dateRange : Option (Nat × Nat))
    (txType : Option String) (pageQ limitQ : Option Int) :
    List.Sorted txLe (historyRows db uid search dateRange txType pageQ limitQ)
      ∧ effLimit none = 20 ∧ effPage none = 1
      ∧ (∀ n : ℤ, n ≠ 0 → effLimit (some n) = n)
      ∧ (∀ n : ℤ, n ≠ 0 → effPage (some n) = n) := by
  refine ⟨?_, rfl, rfl, fun n hn => by rw [effLimit, if_neg hn],
    fun n hn => by rw [effPage, if_neg hn]⟩
  have hsorted :
      List.Sorted txLe
        (sortDesc (db.txns.filter (historyWhere uid search dateRange txType))) :=
    List.sorted_insertionSort txLe _
  exact hsorted.sublist ((List.take_sublist _ _).trans (List.drop_sublist _ _))

/-- Witness for the amended C7 theorem at concrete query parameters. -/
theorem history_sorted_and_configurable_witness :
    (List.Sorted txLe (historyRows demoDb 1 "" none none (some 2) (some 100000))
        ∧ effLimit none = 20 ∧ effPage none = 1
        ∧ (∀ n : ℤ, n ≠ 0 → effLimit (some n) = n)
        ∧ (∀ n : ℤ, n ≠ 0 → effPage (some n) = n))
      ∧ effLimit (some 100000) = 100000 := by
  have h := history_sorted_and_configurable demoDb 1 "" none none (some 2) (some 100000)
  exact ⟨h, h.2.2.2.1 100000 (by decide)⟩

/-- C3 amended: whenever at least one receiver identifier is missing, the
group operation aborts with no balance change, no records and no events; and
whenever, in addition, the sender's pre-operation balance covers the batch
total (the balance check runs first in the source), the error message names
all missing identifiers, joined into one list.  (When the balance check also
fails, the operation still aborts with nothing mutated, but the error is the
insufficient-balance message, which names no identifiers — see the
counterexample.) -/
theorem group_missing_all_aborts
    (db : Db) (pk : Nat) (rc : List (String × ℚ)) (now : DateTime)
    (online : String → Bool) (ssOk : Bool)
    (hm : missingOf db rc ≠ []) :
    (sendGroup db pk rc now online ssOk).committed = false
      ∧ (sendGroup db pk rc now online ssOk).db = db
      ∧ (sendGroup db pk rc now online ssOk).records = []
      ∧ (sendGroup db pk rc now online ssOk).events = []
      ∧ (∀ sender, findByPk db pk = some sender → ¬ sender.balance < totalOf rc →
          (sendGroup db pk rc now online ssOk).errmsg
            = some ("Receiver(s) not found: "
                ++ String.intercalate ", " (missingOf db rc))) := by
  have hne : (missingOf db rc).isEmpty = false := by
    cases e : missingOf db rc with
    | nil => exact absurd e hm
    | cons a as => rfl
  cases hpk : findByPk db pk with
  | none =>
    rw [sendGroup_eq_noSender db pk rc now online ssOk hpk]
    exact ⟨rfl, rfl, rfl, rfl, fun s hs => nomatch hs⟩
  | some sender =>
    by_cases hb : sender.balance < totalOf rc
    · rw [sendGroup_eq_insufficient db pk rc now online ssOk sender hpk hb]
      refine ⟨rfl, rfl, rfl, rfl, fun s hs hnb => ?_⟩
      injection hs with h
      exact absurd (h ▸ hb) hnb
    · rw [sendGroup_eq_missing db pk rc now online ssOk sender hpk hb hne]
      exact ⟨rfl, rfl, rfl, rfl, fun _ _ _ => rfl⟩

/-- Witness for the amended C3 theorem: Alice (balance 10) group-sends 3 to
the unresolvable identifier GHOST1; the operation aborts untouched and the
error names GHOST1. -/
theorem group_missing_all_aborts_witness :
    (sendGroup demoDb 1 [("GHOST1", 3)] demoNow (fun _ => false) true).committed = false
      ∧ (sendGroup demoDb 1 [("GHOST1", 3)] demoNow (fun _ => false) true).db = demoDb
      ∧ (sendGroup demoDb 1 [("GHOST1", 3)] demoNow (fun _ => false) true).records = []
      ∧ (sendGroup demoDb 1 [("GHOST1", 3)] demoNow (fun _ => false) true).events = []
      ∧ (sendGroup demoDb 1 [("GHOST1", 3)] demoNow (fun _ => false) true).errmsg
          = some ("Receiver(s) not found: "
              ++ String.intercalate ", " (missingOf demoDb [("GHOST1", 3)])) := by
  have h := group_missing_all_aborts demoDb 1 [("GHOST1", 3)] demoNow (fun _ => false) true
    (by decide)
  exact ⟨h.1, h.2.1, h.2.2.1, h.2.2.2.1,
    h.2.2.2.2 alice rfl (by norm_num [alice, totalOf, List.foldl])⟩

/-- C3 counterexample: the claim says every group transfer with an
unresolvable receiver fails *with an error naming all missing identifiers*.
When the sender's balance is also short of the batch total, the balance
check fires first: Alice (balance 10) group-sends 30 to GHOST1 — the
operation aborts, but its error is the insufficient-balance message, which
does not name GHOST1 even though GHOST1 is missing. -/
theorem group_missing_receiver_error_can_omit_ids :
    (sendGroup demoDb 1 [("GHOST1", 30)] demoNow (fun _ => false) true).errmsg
        = some "Insufficient balance for group transaction."
      ∧ missingOf demoDb [("GHOST1", 30)] = ["GHOST1"]
      ∧ containsStr "Insufficient balance for group transaction." "GHOST1" = false
      ∧ (sendGroup demoDb 1 [("GHOST1", 30)] demoNow (fun _ => false) true).db = demoDb
      ∧ (sendGroup demoDb 1 [("GHOST1", 30)] demoNow (fun _ => false) true).records = [] := by
  have h := sendGroup_eq_insufficient demoDb 1 [("GHOST1", 30)] demoNow (fun _ => false) true
    alice rfl (by norm_num [alice, totalOf, List.foldl])
  rw [h]
  exact ⟨rfl, by decide, by decide, rfl, rfl⟩

/-- C9 amended: notification events are handed to the dispatcher inside the
atomic unit, after the records are prepared but before the final
`sender.save`; consequently an execution that aborts at that final save
rolls back every store effect while having emitted exactly the same events
as the committing execution. -/
theorem group_notifications_emitted_before_commit
    (db : Db) (pk : Nat) (rc : List (String × ℚ)) (now : DateTime)
    (online : String → Bool)
    (hc : (sendGroup db pk rc now online true).committed = true) :
    (sendGroup db pk rc now online false).committed = false
      ∧ (sendGroup db pk rc now online false).db = db
      ∧ (sendGroup db pk rc now online false).records = []
      ∧ (sendGroup db pk rc now online false).events
          = (sendGroup db pk rc now online true).events := by
  cases hpk : findByPk db pk with
  | none =>
    rw [sendGroup_eq_noSender db pk rc now online true hpk] at hc
    cases hc
  | some sender =>
    by_cases hb : sender.balance < totalOf rc
    · rw [sendGroup_eq_insufficient db pk rc now online true sender hpk hb] at hc
      cases hc
    · cases hm : (missingOf db rc).isEmpty with
      | false =>
        rw [sendGroup_eq_missing db pk rc now online true sender hpk hb hm] at hc
        cases hc
      | true =>
        rw [sendGroup_eq_saveFail db pk rc now online sender hpk hb hm,
          sendGroup_eq_commit db pk rc now online sender hpk hb hm]
        exact ⟨rfl, rfl, rfl, rfl⟩

/-- Witness for the amended C9 theorem: a group send from Alice to Bob whose
committing run succeeds; the aborting run emits the same events yet mutates
nothing. -/
theorem group_notifications_emitted_before_commit_witness :
    (sendGroup demoDb 1 [("BB22B222", 2)] demoNow (fun s => s == "BB22B222") false).committed
        = false
      ∧ (sendGroup demoDb 1 [("BB22B222", 2)] demoNow (fun s => s == "BB22B222") false).db
          = demoDb
      ∧ (sendGroup demoDb 1 [("BB22B222", 2)] demoNow (fun s => s == "BB22B222") false).records
          = []
      ∧ (sendGroup demoDb 1 [("BB22B222", 2)] demoNow (fun s => s == "BB22B222") false).events
          = (sendGroup demoDb 1 [("BB22B222", 2)] demoNow (fun s => s == "BB22B222") true).events := by
  have hc : (sendGroup demoDb 1 [("BB22B222", 2)] demoNow (fun s => s == "BB22B222") true).committed
      = true := by
    rw [sendGroup_eq_commit demoDb 1 [("BB22B222", 2)] demoNow (fun s => s == "BB22B222")
      alice rfl (by norm_num [alice, totalOf, List.foldl]) (by decide)]
  exact group_notifications_emitted_before_commit demoDb 1 [("BB22B222", 2)] demoNow
    (fun s => s == "BB22B222") hc

/-- C9 counterexample: a concrete group send to an online receiver whose
final save fails: nothing is committed — the store is untouched and no
record exists — yet the "transaction completed" event for Bob has already
been emitted. -/
theorem group_abort_after_emission_keeps_events :
    (sendGroup demoDb 1 [("BB22B222", 5)] demoNow (fun s => s == "BB22B222") false).committed
        = false
      ∧ (sendGroup demoDb 1 [("BB22B222", 5)] demoNow (fun s => s == "BB22B222") false).db
          = demoDb
      ∧ (sendGroup demoDb 1 [("BB22B222", 5)] demoNow (fun s => s == "BB22B222") false).records
          = []
      ∧ (sendGroup demoDb 1 [("BB22B222", 5)] demoNow (fun s => s == "BB22B222") false).events
          = [("BB22B222", 5)] := by
  have h := sendGroup_eq_saveFail demoDb 1 [("BB22B222", 5)] demoNow
    (fun s => s == "BB22B222") alice rfl (by norm_num [alice, totalOf, List.foldl]) (by decide)
  rw [h]
  refine ⟨rfl, rfl, rfl, ?_⟩
  norm_num [eventsInit, rmapInit, mapLookup, demoDb, alice, bob, findByUserId, List.find?,
    List.dedup, List.filterMap]

/-- C5: a transfer whose resolved receiver is the sender itself is always
rejected (whatever the amount); and in the history filters, "sent" and
"received" select no self-referential record, while "topup" selects exactly
the principal's records with `senderId = receiverId`. -/
theorem selfTransfer_rejected_and_filters_classify :
    (∀ db pk rid amt now sender receiver,
        findByPk db pk = some sender →
        findByUserId db (jsToUpper rid) = some receiver →
        sender.id = receiver.id →
        ∃ e, send db pk rid amt now = .error e)
      ∧ (∀ uid tx, historyWhere uid "" none (some "sent") tx = true →
          tx.senderId ≠ tx.receiverId)
      ∧ (∀ uid tx, historyWhere uid "" none (some "received") tx = true →
          tx.senderId ≠ tx.receiverId)
      ∧ (∀ uid tx, historyWhere uid "" none (some "topup") tx = true ↔
          ((tx.senderId = uid ∨ tx.receiverId = uid) ∧ tx.senderId = tx.receiverId)) := by
  refine ⟨?_, ?_, ?_, ?_⟩
  · intro db pk rid amt now sender receiver hs hr h
    rw [send]
    simp only [hs, hr]
    by_cases hb : sender.balance < amt
    · exact ⟨_, by rw [if_pos hb]⟩
    · refine ⟨"Cannot send money to yourself.", ?_⟩
      rw [if_neg hb, h]
      simp
  · intro uid tx h
    simp [historyWhere] at h
    omega
  · intro uid tx h
    simp [historyWhere] at h
    omega
  · intro uid tx
    simp [historyWhere]
    omega

/-- Witness for C5: Alice sending to her own identifier is rejected, and the
three filters classify concrete records as stated. -/
theorem selfTransfer_rejected_and_filters_classify_witness :
    (∃ e, send demoDb 1 "AA11A111" 5 demoNow = .error e)
      ∧ sentTx.senderId ≠ sentTx.receiverId
      ∧ recvTx.senderId ≠ recvTx.receiverId
      ∧ (historyWhere 1 "" none (some "topup") topupTx = true ↔
          ((topupTx.senderId = 1 ∨ topupTx.receiverId = 1)
            ∧ topupTx.senderId = topupTx.receiverId)) :=
  ⟨selfTransfer_rejected_and_filters_classify.1 demoDb 1 "AA11A111" 5 demoNow alice alice
      rfl rfl rfl,
    selfTransfer_rejected_and_filters_classify.2.1 1 sentTx (by decide),
    selfTransfer_rejected_and_filters_classify.2.2.1 1 recvTx (by decide),
    selfTransfer_rejected_and_filters_classify.2.2.2 1 topupTx⟩

/-! Arithmetic and lookup lemmas shared by the conservation and
group-transfer theorems. -/

/-- `totalOf` as a mapped sum. -/
theorem totalOf_eq_sum (rc : List (String × ℚ)) :
    totalOf rc = (rc.map (fun r => r.2)).sum := by
  have h : ∀ (init : ℚ) (l : List (String × ℚ)),
      l.foldl (fun acc r => acc + r.2) init = init + (l.map (fun r => r.2)).sum := by
    intro init l
    induction l generalizing init with
    | nil => simp
    | cons r rest ih => simp [ih, add_assoc]
  simpa using h 0 rc

/-- Appending one recipient adds its amount to the batch total. -/
theorem totalOf_append_single (P : List (String × ℚ)) (r : String × ℚ) :
    totalOf (P ++ [r]) = totalOf P + r.2 := by
  simp [totalOf, List.foldl_append]

/-- Head decomposition of the batch total. -/
theorem totalOf_cons (r : String × ℚ) (rest : List (String × ℚ)) :
    totalOf (r :: rest) = r.2 + totalOf rest := by
  simp [totalOf_eq_sum]

/-- Head decomposition of the per-identifier credit. -/
theorem creditsFor_cons (k : String) (r : String × ℚ) (rest : List (String × ℚ)) :
    creditsFor k (r :: rest)
      = (if jsToUpper r.1 == k then r.2 else 0) + creditsFor k rest := by
  cases hb : jsToUpper r.1 == k <;> simp [creditsFor, List.filter_cons, hb]

/-- Appending one recipient adds its amount to its own identifier's credit
and nothing to the others. -/
theorem creditsFor_append_single (k : String) (P : List (String × ℚ)) (r : String × ℚ) :
    creditsFor k (P ++ [r])
      = creditsFor k P + (if jsToUpper r.1 == k then r.2 else 0) := by
  cases hb : jsToUpper r.1 == k <;>
    simp [creditsFor, List.filter_append, List.filter_cons, hb]

/-- An identifier addressed by no recipient entry receives no credit. -/
theorem creditsFor_zero_of_absent (k : String) (rc : List (String × ℚ))
    (h : ∀ r ∈ rc, ¬ (jsToUpper r.1 == k) = true) :
    creditsFor k rc = 0 := by
  induction rc with
  | nil => rfl
  | cons r rest ih =>
    rw [creditsFor_cons, if_neg (h r (by simp)),
      ih (fun x hx => h x (by simp [hx])), add_zero]

/-- Pointwise sums split. -/
theorem sum_map_add (l : List Account) (f g : Account → ℚ) :
    (l.map (fun u => f u + g u)).sum = (l.map f).sum + (l.map g).sum := by
  induction l with
  | nil => simp
  | cons u t ih =>
    simp only [List.map_cons, List.sum_cons, ih]
    ring

/-- Summing an indicator payout counts the satisfying rows. -/
theorem sum_if_count (l : List Account) (p : Account → Bool) (c : ℚ) :
    (l.map (fun u => if p u then c else 0)).sum = c * l.countP p := by
  induction l with
  | nil => simp
  | cons u t ih =>
    cases hp : p u
    · simp [List.countP_cons, hp, ih]
    · simp [List.countP_cons, hp, ih]
      ring

/-- In a duplicate-free list, a predicate satisfied by exactly one element
counts to one. -/
theorem countP_eq_one_of_unique (l : List Account) (p : Account → Bool) (u0 : Account)
    (hnd : l.Nodup) (hmem : u0 ∈ l) (hp : p u0 = true)
    (huniq : ∀ v ∈ l, p v = true → v = u0) :
    l.countP p = 1 := by
  induction l with
  | nil => cases hmem
  | cons h t ih =>
    have hnd2 := List.nodup_cons.1 hnd
    rcases List.mem_cons.1 hmem with rfl | hm
    · have ht : t.countP p = 0 := by
        rw [List.countP_eq_zero]
        intro v hv hpv
        exact hnd2.1 ((huniq v (by simp [hv]) hpv) ▸ hv)
      rw [List.countP_cons, hp, if_pos rfl, ht]
    · have hph : p h = false := by
        cases hph : p h
        · rfl
        · exact absurd ((huniq h (by simp) hph) ▸ hm) hnd2.1
      rw [List.countP_cons, hph, if_neg (by simp), add_zero]
      exact ih hnd2.2 hm (fun v hv hpv => huniq v (by simp [hv]) hpv)

/-- In a store with duplicate-free internal keys, looking up a member row by
its own key returns that row. -/
theorem find?_id_of_nodup (l : List Account) (u : Account)
    (hnd : (l.map Account.id).Nodup) (hmem : u ∈ l) :
    l.find? (fun v => v.id == u.id) = some u := by
  induction l with
  | nil => cases hmem
  | cons h t ih =>
    by_cases hh : (h.id == u.id) = true
    · have he : h = u :=
        List.inj_on_of_nodup_map hnd (by simp) hmem (by simpa using hh)
      simp [List.find?_cons, hh, he]
    · have hm2 : u ∈ t := by
        rcases List.mem_cons.1 hmem with rfl | h2
        · exact absurd (by simp) hh
        · exact h2
      have hhf : (h.id == u.id) = false := by
        cases hx : (h.id == u.id)
        · rfl
        · exact absurd hx hh
      rw [List.find?_cons, hhf]
      have hnd2 : (t.map Account.id).Nodup := by
        rw [List.map_cons] at hnd
        exact hnd.of_cons
      exact ih hnd2 hm2

/-- `findByPk` of a member row by its own key. -/
theorem findByPk_self (db : Db) (u : Account)
    (hnd : (db.users.map Account.id).Nodup) (hmem : u ∈ db.users) :
    findByPk db u.id = some u :=
  find?_id_of_nodup db.users u hnd hmem

/-- What a successful `findByPk` tells us. -/
theorem findByPk_spec {db : Db} {pk : Nat} {u : Account}
    (h : findByPk db pk = some u) : u ∈ db.users ∧ u.id = pk :=
  ⟨List.mem_of_find?_eq_some h, by simpa using List.find?_some h⟩

/-- What a successful `findByUserId` tells us. -/
theorem findByUserId_spec {db : Db} {k : String} {a : Account}
    (h : findByUserId db k = some a) : a ∈ db.users ∧ a.userId = k :=
  ⟨List.mem_of_find?_eq_some h, by simpa using List.find?_some h⟩

/-! The group-send loop: a step-by-step characterization. -/

/-- Congruence for `filterMap` under pointwise equal functions. -/
theorem filterMap_congr_fun {α β : Type} (L : List α) (f g : α → Option β)
    (h : ∀ a, f a = g a) : L.filterMap f = L.filterMap g := by
  induction L with
  | nil => rfl
  | cons a t ih => rw [List.filterMap_cons, List.filterMap_cons, h a, ih]

/-- Lookup in a map whose head entry has a different key. -/
theorem mapLookup_cons_ne (h : String) (v : Account) (m : List (String × Account))
    (k₀ : String) (hne : (h == k₀) = false) :
    mapLookup ((h, v) :: m) k₀ = mapLookup m k₀ := by
  simp [mapLookup, List.find?_cons, hne]

/-- Lookup in a map whose head entry has the queried key. -/
theorem mapLookup_cons_eq (h : String) (v : Account) (m : List (String × Account))
    (k₀ : String) (heq : (h == k₀) = true) :
    mapLookup ((h, v) :: m) k₀ = some v := by
  simp [mapLookup, List.find?_cons, heq]

/-- Looking up a key of a keyed `filterMap` returns that key's image —
entries of one key are all identical, so the first hit is the value. -/
theorem mapLookup_keyed (L : List String) (g : String → Option Account)
    (F : String → Account → Account) (k₀ : String) (a₀ : Account)
    (hk : k₀ ∈ L) (hg : g k₀ = some a₀) :
    mapLookup (L.filterMap (fun k => (g k).map (fun a => (k, F k a)))) k₀
      = some (F k₀ a₀) := by
  induction L with
  | nil => cases hk
  | cons h t ih =>
    rw [List.filterMap_cons]
    cases hgh : g h with
    | none =>
      have hk2 : k₀ ∈ t := by
        rcases List.mem_cons.1 hk with rfl | h2
        · rw [hg] at hgh; cases hgh
        · exact h2
      simpa [hgh] using ih hk2
    | some b =>
      by_cases hh : (h == k₀) = true
      · have he : h = k₀ := by simpa using hh
        subst he
        rw [hg] at hgh
        injection hgh with hb
        subst hb
        exact mapLookup_cons_eq h (F h a₀) _ h hh
      · have hhf : (h == k₀) = false := by
          cases hx : (h == k₀)
          · rfl
          · exact absurd hx hh
        have hk2 : k₀ ∈ t := by
          rcases List.mem_cons.1 hk with rfl | h2
          · exact absurd (by simp) hh
          · exact h2
        simpa [hgh, mapLookup_cons_ne h (F h b) _ k₀ hhf] using ih hk2

/-- Overwriting one key of a keyed `filterMap` yields the keyed `filterMap`
of the updated value family. -/
theorem mapSet_keyed (L : List String) (g : String → Option Account)
    (F G : String → Account → Account) (k₀ : String) (v : Account)
    (hv : ∀ a, g k₀ = some a → G k₀ a = v)
    (hothers : ∀ k, (k == k₀) = false → ∀ a, F k a = G k a) :
    mapSet (L.filterMap (fun k => (g k).map (fun a => (k, F k a)))) k₀ v
      = L.filterMap (fun k => (g k).map (fun a => (k, G k a))) := by
  rw [mapSet, List.map_filterMap]
  apply filterMap_congr_fun
  intro k
  cases hgk : g k with
  | none => rfl
  | some a =>
    by_cases hk : (k == k₀) = true
    · have he : k = k₀ := by simpa using hk
      subst he
      simp [hk, hv a hgk]
    · have hkf : (k == k₀) = false := by
        cases hx : (k == k₀)
        · rfl
        · exact absurd hx hk
      simp [hkf, hothers k hkf a]
      intro he
      exact absurd (by simp [he]) hk

/-- The receiver-map after one more loop iteration. -/
theorem mapSet_rmapOf (db : Db) (ks : List String) (P : List (String × ℚ))
    (r : String × ℚ) (a₀ : Account)
    (hg : findByUserId db (jsToUpper r.1) = some a₀) :
    mapSet (rmapOf db ks P) (jsToUpper r.1)
        { a₀ with balance := a₀.balance + creditsFor (jsToUpper r.1) P + r.2 }
      = rmapOf db ks (P ++ [r]) := by
  unfold rmapOf
  apply mapSet_keyed
  · intro a ha
    rw [hg] at ha
    injection ha with ha
    subst ha
    rw [creditsFor_append_single]
    simp [add_assoc]
  · intro k hk a
    have hne : (jsToUpper r.1 == k) = false := by
      cases hx : (jsToUpper r.1 == k)
      · rfl
      · exfalso
        have h1 : jsToUpper r.1 = k := by simpa using hx
        rw [h1] at hk
        simp at hk
    simp [creditsFor_append_single, hne]

/-- The store after one more receiver save. -/
theorem updateBalance_dbCredited (db : Db) (P : List (String × ℚ))
    (r : String × ℚ) (a₀ : Account)
    (hids : (db.users.map Account.id).Nodup)
    (huids : (db.users.map Account.userId).Nodup)
    (hg : findByUserId db (jsToUpper r.1) = some a₀) :
    updateBalance (dbCredited db P) a₀.id
        (a₀.balance + creditsFor (jsToUpper r.1) P + r.2)
      = dbCredited db (P ++ [r]) := by
  obtain ⟨hmem, huid⟩ := findByUserId_spec hg
  unfold updateBalance dbCredited
  simp only [List.map_map]
  congr 1
  apply List.map_congr_left
  intro u hu
  simp only [Function.comp]
  by_cases hid : (u.id == a₀.id) = true
  · have hue : u = a₀ := List.inj_on_of_nodup_map hids hu hmem (by simpa using hid)
    subst hue
    simp only [if_pos hid]
    rw [creditsFor_append_single, ← huid]
    simp [add_assoc]
  · have hidf : (u.id == a₀.id) = false := by
      cases hx : (u.id == a₀.id)
      · rfl
      · exact absurd hx hid
    have hne : (jsToUpper r.1 == u.userId) = false := by
      cases hx : (jsToUpper r.1 == u.userId)
      · rfl
      · exfalso
        have h0 : jsToUpper r.1 = u.userId := by simpa using hx
        have h1 : u.userId = jsToUpper r.1 := h0.symm
        have h2 : u = a₀ :=
          List.inj_on_of_nodup_map huids hu hmem (by rw [h1, huid])
        rw [h2] at hidf
        simp at hidf
    simp only [hidf, if_false, Bool.false_eq_true]
    simp [creditsFor_append_single, hne]

/-- One loop iteration advances the characterized state by one recipient. -/
theorem groupStep_loopStOf (db : Db) (sender : Account) (now : DateTime)
    (ks : List String)
    (hids : (db.users.map Account.id).Nodup)
    (huids : (db.users.map Account.userId).Nodup)
    (P : List (String × ℚ)) (r : String × ℚ)
    (hk : jsToUpper r.1 ∈ ks)
    (a₀ : Account) (hg : findByUserId db (jsToUpper r.1) = some a₀) :
    groupStep now (loopStOf db sender ks now P) r
      = loopStOf db sender ks now (P ++ [r]) := by
  have hlook : mapLookup (rmapOf db ks P) (jsToUpper r.1)
      = some { a₀ with balance := a₀.balance + creditsFor (jsToUpper r.1) P } := by
    unfold rmapOf
    exact mapLookup_keyed ks.dedup (findByUserId db) _ (jsToUpper r.1) a₀
      (List.mem_dedup.2 hk) hg
  simp only [groupStep, loopStOf, hlook]
  rw [LoopSt.mk.injEq]
  refine ⟨?_, ?_, ?_, ?_⟩
  · rw [Account.mk.injEq]
    refine ⟨rfl, rfl, rfl, rfl, ?_⟩
    rw [totalOf_append_single, sub_sub]
  · exact mapSet_rmapOf db ks P r a₀ hg
  · exact updateBalance_dbCredited db P r a₀ hids huids hg
  · show recsOf db sender P now ++ [groupRec sender a₀ r.2 now]
        = recsOf db sender (P ++ [r]) now
    simp [recsOf, List.filterMap_append, hg]

/-- Folding the loop over a suffix of resolvable recipients advances the
characterized state by that suffix. -/
theorem foldl_groupStep_loopStOf (db : Db) (sender : Account) (now : DateTime)
    (ks : List String)
    (hids : (db.users.map Account.id).Nodup)
    (huids : (db.users.map Account.userId).Nodup) :
    ∀ (suffix P : List (String × ℚ)),
      (∀ r ∈ suffix, jsToUpper r.1 ∈ ks) →
      (∀ r ∈ suffix, (findByUserId db (jsToUpper r.1)).isSome) →
      List.foldl (groupStep now) (loopStOf db sender ks now P) suffix
        = loopStOf db sender ks now (P ++ suffix) := by
  intro suffix
  induction suffix with
  | nil => intro P _ _; simp
  | cons r rest ih =>
    intro P hk hres
    rw [List.foldl_cons]
    obtain ⟨a₀, hg⟩ := Option.isSome_iff_exists.1 (hres r (by simp))
    rw [groupStep_loopStOf db sender now ks hids huids P r (hk r (by simp)) a₀ hg]
    rw [ih (P ++ [r]) (fun x hx => hk x (by simp [hx])) (fun x hx => hres x (by simp [hx]))]
    simp

/-- The loop run from the route's initial copies is the characterized final
state over the whole recipient list. -/
theorem groupLoopRun_eq (db : Db) (sender : Account) (rc : List (String × ℚ))
    (now : DateTime)
    (hids : (db.users.map Account.id).Nodup)
    (huids : (db.users.map Account.userId).Nodup)
    (hres : ∀ r ∈ rc, (findByUserId db (jsToUpper r.1)).isSome) :
    groupLoopRun db sender rc now
      = loopStOf db sender (rc.map (fun r => jsToUpper r.1)) now rc := by
  have hinit : LoopSt.mk sender (rmapInit db rc) db []
      = loopStOf db sender (rc.map (fun r => jsToUpper r.1)) now [] := by
    rw [loopStOf, LoopSt.mk.injEq]
    refine ⟨?_, ?_, ?_, rfl⟩
    · have h0 : sender.balance - totalOf ([] : List (String × ℚ)) = sender.balance := by
        simp [totalOf]
      rw [h0]
    · unfold rmapInit rmapOf
      apply filterMap_congr_fun
      intro k
      cases hgk : findByUserId db k with
      | none => rfl
      | some a => simp [creditsFor]
    · unfold dbCredited
      have h1 : ∀ u ∈ db.users,
          ({ u with balance := u.balance + creditsFor u.userId [] } : Account) = u := by
        intro u _
        simp [creditsFor]
      rw [List.map_congr_left h1]
      simp
  rw [groupLoopRun, hinit]
  rw [foldl_groupStep_loopStOf db sender now _ hids huids rc []
    (fun r hr => List.mem_map.2 ⟨r, hr, rfl⟩) hres]
  simp

/-- When every recipient resolves, nothing is missing. -/
theorem missingOf_nil_of_resolvable (db : Db) (rc : List (String × ℚ))
    (hres : ∀ r ∈ rc, (findByUserId db (jsToUpper r.1)).isSome) :
    missingOf db rc = [] := by
  unfold missingOf
  rw [List.filter_eq_nil_iff]
  intro k hk
  obtain ⟨r, hr, rfl⟩ := List.mem_map.1 hk
  obtain ⟨a, ha⟩ := Option.isSome_iff_exists.1 (hres r hr)
  simp [ha]

/-- Full characterization of a committed group send: the final store carries
every non-sender row credited by all the amounts addressed to its
identifier, the sender's row overwritten last with its in-memory balance
(initial balance minus the batch total), and the per-occurrence records
appended in input order. -/
theorem sendGroup_commit_spec (db : Db) (pk : Nat) (rc : List (String × ℚ))
    (now : DateTime) (online : String → Bool) (sender : Account)
    (hids : (db.users.map Account.id).Nodup)
    (huids : (db.users.map Account.userId).Nodup)
    (hpk : findByPk db pk = some sender)
    (hb : ¬ sender.balance < totalOf rc)
    (hres : ∀ r ∈ rc, (findByUserId db (jsToUpper r.1)).isSome) :
    sendGroup db pk rc now online true
      = ⟨true,
          { users := db.users.map (fun u =>
                if u.id == sender.id then
                  { u with balance := sender.balance - totalOf rc }
                else { u with balance := u.balance + creditsFor u.userId rc }),
            txns := db.txns ++ recsOf db sender rc now },
          recsOf db sender rc now,
          eventsInit db rc online,
          none⟩ := by
  have hmnil := missingOf_nil_of_resolvable db rc hres
  have hm : (missingOf db rc).isEmpty = true := by rw [hmnil]; rfl
  rw [sendGroup_eq_commit db pk rc now online sender hpk hb hm]
  rw [groupLoopRun_eq db sender rc now hids huids hres]
  rw [updateBalance, GroupResult.mk.injEq]
  refine ⟨rfl, ?_, rfl, rfl, rfl⟩
  rw [Db.mk.injEq]
  constructor
  · show ((db.users.map
          (fun u => { u with balance := u.balance + creditsFor u.userId rc })).map
        (fun u => if u.id == sender.id
          then { u with balance := sender.balance - totalOf rc } else u))
      = _
    rw [List.map_map]
    apply List.map_congr_left
    intro u hu
    by_cases hid : (u.id == sender.id) = true
    · simp [Function.comp, hid]
    · have hidf : (u.id == sender.id) = false := by
        cases hx : (u.id == sender.id)
        · rfl
        · exact absurd hx hid
      simp [Function.comp, hidf]
  · rfl

/-- What a successful `/send` tells us: the guards passed and the outcome is
the double-credit store with one appended record. -/
theorem send_ok_inv (db : Db) (pk : Nat) (rid : String) (amt : ℚ) (now : DateTime)
    (sender receiver : Account) (out : SendOk)
    (hs : findByPk db pk = some sender)
    (hr : findByUserId db (jsToUpper rid) = some receiver)
    (hok : send db pk rid amt now = .ok out) :
    ¬ sender.balance < amt ∧ (sender.id == receiver.id) = false
      ∧ out = ⟨{ creditUser (creditUser db sender.id (-amt)) receiver.id amt with
                  txns := db.txns ++ [⟨sender.id, receiver.id, sender.name, receiver.name,
                    sender.userId, receiver.userId, amt, .TRANSFER, now⟩] },
              ⟨sender.id, receiver.id, sender.name, receiver.name,
                sender.userId, receiver.userId, amt, .TRANSFER, now⟩,
              sender.balance - amt⟩ := by
  rw [send] at hok
  simp only [hs, hr] at hok
  by_cases hb : sender.balance < amt
  · rw [if_pos hb] at hok
    cases hok
  · rw [if_neg hb] at hok
    by_cases hid : (sender.id == receiver.id) = true
    · rw [if_pos hid] at hok
      cases hok
    · have hidf : (sender.id == receiver.id) = false := by
        cases hx : (sender.id == receiver.id)
        · rfl
        · exact absurd hx hid
      rw [hidf] at hok
      simp only [Bool.false_eq_true, if_false] at hok
      injection hok with h
      exact ⟨hb, hidf, h.symm⟩

/-- `findByPk` looks through a single-row credit. -/
theorem findByPk_creditUser (db : Db) (pk' : Nat) (δ : ℚ) (pk : Nat) :
    findByPk (creditUser db pk' δ) pk
      = (findByPk db pk).map
          (fun u => if u.id == pk' then { u with balance := u.balance + δ } else u) := by
  unfold findByPk creditUser
  rw [List.find?_map]
  have hp : ((fun u : Account => u.id == pk) ∘ fun u =>
        if u.id == pk' then { u with balance := u.balance + δ } else u)
      = fun u : Account => u.id == pk := by
    funext u
    by_cases h : (u.id == pk') = true <;> simp [Function.comp, h]
  rw [hp]

/-- A single-row credit shifts the balance sum by the delta times the number
of rows carrying that key. -/
theorem sumBalances_creditUser (db : Db) (pk : Nat) (δ : ℚ) :
    sumBalances (creditUser db pk δ)
      = sumBalances db + δ * db.users.countP (fun u => u.id == pk) := by
  unfold sumBalances creditUser
  rw [List.map_map]
  have h1 : (Account.balance ∘ fun u =>
        if u.id == pk then { u with balance := u.balance + δ } else u)
      = fun u : Account => u.balance + (if (u.id == pk) = true then δ else 0) := by
    funext u
    by_cases h : (u.id == pk) = true <;> simp [Function.comp, h]
  rw [h1, sum_map_add db.users (fun u => u.balance)
      (fun u => if (u.id == pk) = true then δ else 0),
    sum_if_count db.users (fun u => u.id == pk) δ]

/-- With duplicate-free keys, exactly one row carries a member's key. -/
theorem countP_id_one (db : Db) (u : Account)
    (hids : (db.users.map Account.id).Nodup) (hmem : u ∈ db.users) :
    db.users.countP (fun v => v.id == u.id) = 1 :=
  countP_eq_one_of_unique db.users _ u (hids.of_map) hmem (by simp)
    (fun v hv hpv => List.inj_on_of_nodup_map hids hv hmem (by simpa using hpv))

/-- Replacing one member row's balance while crediting all the others. -/
theorem sum_overwrite (l : List Account) (u0 : Account) (v : ℚ) (c : Account → ℚ)
    (hnd : (l.map Account.id).Nodup) (hmem : u0 ∈ l) :
    (l.map (fun u => if u.id == u0.id then v else u.balance + c u)).sum
      = (l.map (fun u => u.balance + c u)).sum - (u0.balance + c u0) + v := by
  induction l with
  | nil => cases hmem
  | cons h t ih =>
    have hnd0 : (t.map Account.id).Nodup := by
      rw [List.map_cons] at hnd
      exact hnd.of_cons
    by_cases hh : (h.id == u0.id) = true
    · have he : h = u0 :=
        List.inj_on_of_nodup_map hnd (by simp) hmem (by simpa using hh)
      subst he
      have hnone : ∀ u ∈ t, (u.id == h.id) = false := by
        intro u hu
        cases hx : (u.id == h.id)
        · rfl
        · exfalso
          rw [List.map_cons] at hnd
          exact (List.nodup_cons.1 hnd).1
            (List.mem_map.2 ⟨u, hu, by simpa using hx⟩)
      rw [List.map_cons, List.map_cons, if_pos hh, List.sum_cons, List.sum_cons]
      have ht : t.map (fun u => if u.id == h.id then v else u.balance + c u)
          = t.map (fun u => u.balance + c u) :=
        List.map_congr_left (fun u hu => by rw [hnone u hu]; simp)
      rw [ht]
      ring
    · have hm2 : u0 ∈ t := by
        rcases List.mem_cons.1 hmem with rfl | h2
        · exact absurd (by simp) hh
        · exact h2
      rw [List.map_cons, List.map_cons, if_neg hh, List.sum_cons, List.sum_cons,
        ih hnd0 hm2]
      ring

/-- Summing each row's addressed credits over a fully resolvable recipient
list yields the batch total. -/
theorem sum_creditsFor (l : List Account) (rc : List (String × ℚ))
    (hnd : l.Nodup) (huids : (l.map Account.userId).Nodup)
    (hres : ∀ r ∈ rc, ∃ u ∈ l, u.userId = jsToUpper r.1) :
    (l.map (fun u => creditsFor u.userId rc)).sum = totalOf rc := by
  induction rc with
  | nil => simp [creditsFor, totalOf]
  | cons r rest ih =>
    have h1 : (l.map (fun u => creditsFor u.userId (r :: rest))).sum
        = (l.map (fun u =>
            (if jsToUpper r.1 == u.userId then r.2 else 0)
              + creditsFor u.userId rest)).sum := by
      congr 1
      apply List.map_congr_left
      intro u _
      rw [creditsFor_cons]
    rw [h1, sum_map_add, sum_if_count, totalOf_cons]
    obtain ⟨u0, hu0, huid⟩ := hres r (by simp)
    have huniq : ∀ v ∈ l, (jsToUpper r.1 == v.userId) = true → v = u0 := by
      intro v hv hpv
      have hv2 : jsToUpper r.1 = v.userId := by simpa using hpv
      exact List.inj_on_of_nodup_map huids hv hu0 (by rw [← hv2, huid])
    rw [countP_eq_one_of_unique l _ u0 hnd hu0 (by simp [huid]) huniq,
      ih (fun x hx => hres x (by simp [hx]))]
    ring

/-- With every recipient resolvable, the loop creates one record per
occurrence. -/
theorem recsOf_length (db : Db) (sender : Account) (rc : List (String × ℚ))
    (now : DateTime)
    (hres : ∀ r ∈ rc, (findByUserId db (jsToUpper r.1)).isSome) :
    (recsOf db sender rc now).length = rc.length := by
  induction rc with
  | nil => rfl
  | cons r rest ih =>
    obtain ⟨a, ha⟩ := Option.isSome_iff_exists.1 (hres r (by simp))
    simp [recsOf, List.filterMap_cons, ha]
    simpa [recsOf] using ih (fun x hx => hres x (by simp [hx]))

/-- After a committed group send, the sender's row holds its in-memory final
balance: the pre-operation balance minus the batch total, whatever credits
the loop may have written to that row. -/
theorem sendGroup_commit_balance_sender (db : Db) (pk : Nat)
    (rc : List (String × ℚ)) (now : DateTime) (online : String → Bool)
    (sender : Account)
    (hids : (db.users.map Account.id).Nodup)
    (huids : (db.users.map Account.userId).Nodup)
    (hpk : findByPk db pk = some sender)
    (hb : ¬ sender.balance < totalOf rc)
    (hres : ∀ r ∈ rc, (findByUserId db (jsToUpper r.1)).isSome) :
    getBalance (sendGroup db pk rc now online true).db sender.id
      = sender.balance - totalOf rc := by
  rw [sendGroup_commit_spec db pk rc now online sender hids huids hpk hb hres]
  obtain ⟨hmem, _⟩ := findByPk_spec hpk
  unfold getBalance findByPk
  rw [List.find?_map]
  have hp : ((fun u : Account => u.id == sender.id) ∘ fun u =>
        if u.id == sender.id then { u with balance := sender.balance - totalOf rc }
        else { u with balance := u.balance + creditsFor u.userId rc })
      = fun u : Account => u.id == sender.id := by
    funext u
    by_cases h : (u.id == sender.id) = true <;> simp [Function.comp, h]
  rw [hp, find?_id_of_nodup db.users sender hids hmem]
  simp

/-- After a committed group send, every row other than the sender's ends
with its pre-operation balance plus all the credits addressed to its
identifier. -/
theorem sendGroup_commit_balance_other (db : Db) (pk : Nat)
    (rc : List (String × ℚ)) (now : DateTime) (online : String → Bool)
    (sender : Account)
    (hids : (db.users.map Account.id).Nodup)
    (huids : (db.users.map Account.userId).Nodup)
    (hpk : findByPk db pk = some sender)
    (hb : ¬ sender.balance < totalOf rc)
    (hres : ∀ r ∈ rc, (findByUserId db (jsToUpper r.1)).isSome)
    (u : Account) (hu : u ∈ db.users) (hne : u.userId ≠ sender.userId) :
    getBalance (sendGroup db pk rc now online true).db u.id
      = u.balance + creditsFor u.userId rc := by
  rw [sendGroup_commit_spec db pk rc now online sender hids huids hpk hb hres]
  obtain ⟨hsmem, _⟩ := findByPk_spec hpk
  have hidne : (u.id == sender.id) = false := by
    cases hx : (u.id == sender.id)
    · rfl
    · exfalso
      have he : u = sender := List.inj_on_of_nodup_map hids hu hsmem (by simpa using hx)
      exact hne (by rw [he])
  unfold getBalance findByPk
  rw [List.find?_map]
  have hp : ((fun v : Account => v.id == u.id) ∘ fun v =>
        if v.id == sender.id then { v with balance := sender.balance - totalOf rc }
        else { v with balance := v.balance + creditsFor v.userId rc })
      = fun v : Account => v.id == u.id := by
    funext v
    by_cases h : (v.id == sender.id) = true <;> simp [Function.comp, h]
  rw [hp, find?_id_of_nodup db.users u hids hu]
  have hne2 : ¬ u.id = sender.id := by simpa using hidne
  simp [hne2]

/-- C2 amended: every committed Transfer debits the sender and credits the
receiver by exactly the amount and conserves the balance sum; a committed
GroupTransfer conserves the sum provided no recipient identifier is the
sender's own (credits a group send writes to the sender's row are
overwritten by the final sender save); and a committed TopUp of amount `a`
changes the sum by exactly `a` — a strict increase only when `a` is
positive, since non-positive amounts are not rejected. -/
theorem ledger_deltas_and_conservation :
    (∀ db pk rid amt now out sender receiver,
        (db.users.map Account.id).Nodup →
        findByPk db pk = some sender →
        findByUserId db (jsToUpper rid) = some receiver →
        send db pk rid amt now = .ok out →
        getBalance out.db sender.id = sender.balance - amt
          ∧ getBalance out.db receiver.id = receiver.balance + amt
          ∧ sumBalances out.db = sumBalances db)
      ∧ (∀ db pk rc now online sender,
          (db.users.map Account.id).Nodup →
          (db.users.map Account.userId).Nodup →
          findByPk db pk = some sender →
          ¬ sender.balance < totalOf rc →
          (∀ r ∈ rc, (findByUserId db (jsToUpper r.1)).isSome) →
          (∀ r ∈ rc, jsToUpper r.1 ≠ sender.userId) →
          (sendGroup db pk rc now online true).committed = true
            ∧ sumBalances (sendGroup db pk rc now online true).db = sumBalances db)
      ∧ (∀ db pk a now db1 rec nb user,
          (db.users.map Account.id).Nodup →
          findByPk db pk = some user →
          topup db pk a now = .ok (db1, rec, nb) →
          sumBalances db1 = sumBalances db + a) := by
  refine ⟨?_, ?_, ?_⟩
  · intro db pk rid amt now out sender receiver hids hs hr hok
    obtain ⟨hb, hidf, hout⟩ := send_ok_inv db pk rid amt now sender receiver out hs hr hok
    subst hout
    obtain ⟨hsmem, hspk⟩ := findByPk_spec hs
    obtain ⟨hrmem, hruid⟩ := findByUserId_spec hr
    have hrne : (receiver.id == sender.id) = false := by
      cases hx : (receiver.id == sender.id)
      · rfl
      · exfalso
        have h2 : sender.id = receiver.id := (by simpa using hx : receiver.id = sender.id).symm
        rw [h2] at hidf
        simp at hidf
    refine ⟨?_, ?_, ?_⟩
    · show getBalance (creditUser (creditUser db sender.id (-amt)) receiver.id amt)
          sender.id = _
      unfold getBalance
      have hs2 : findByPk db sender.id = some sender := by rw [hspk]; exact hs
      rw [findByPk_creditUser, findByPk_creditUser, hs2]
      have hidne2 : ¬ sender.id = receiver.id := by simpa using hidf
      simp [hidne2, sub_eq_add_neg]
    · show getBalance (creditUser (creditUser db sender.id (-amt)) receiver.id amt)
          receiver.id = _
      unfold getBalance
      rw [findByPk_creditUser, findByPk_creditUser,
        findByPk_self db receiver hids hrmem]
      have hrne2 : ¬ receiver.id = sender.id := by simpa using hrne
      simp [hrne2]
    · show sumBalances (creditUser (creditUser db sender.id (-amt)) receiver.id amt)
          = sumBalances db
      rw [sumBalances_creditUser, sumBalances_creditUser]
      have hc2 : (creditUser db sender.id (-amt)).users.countP
          (fun u => u.id == receiver.id) = 1 := by
        unfold creditUser
        rw [List.countP_map]
        have hp : ((fun u : Account => u.id == receiver.id) ∘ fun u =>
              if u.id == sender.id then { u with balance := u.balance + (-amt) } else u)
            = fun u : Account => u.id == receiver.id := by
          funext u
          by_cases h : (u.id == sender.id) = true <;> simp [Function.comp, h]
        rw [hp, countP_id_one db receiver hids hrmem]
      rw [hc2, countP_id_one db sender hids hsmem]
      ring
  · intro db pk rc now online sender hids huids hs hb hres hnself
    obtain ⟨hsmem, _⟩ := findByPk_spec hs
    constructor
    · rw [sendGroup_commit_spec db pk rc now online sender hids huids hs hb hres]
    · rw [sendGroup_commit_spec db pk rc now online sender hids huids hs hb hres]
      unfold sumBalances
      rw [List.map_map]
      have hbp : (Account.balance ∘ fun u =>
            if u.id == sender.id then { u with balance := sender.balance - totalOf rc }
            else { u with balance := u.balance + creditsFor u.userId rc })
          = fun u : Account =>
              if u.id == sender.id then sender.balance - totalOf rc
              else u.balance + creditsFor u.userId rc := by
        funext u
        by_cases h : (u.id == sender.id) = true <;> simp [Function.comp, h]
      rw [hbp,
        sum_overwrite db.users sender _ (fun u => creditsFor u.userId rc) hids hsmem,
        sum_map_add db.users (fun u => u.balance) (fun u => creditsFor u.userId rc),
        sum_creditsFor db.users rc hids.of_map huids
          (fun r hr => by
            obtain ⟨a, ha⟩ := Option.isSome_iff_exists.1 (hres r hr)
            exact ⟨a, (findByUserId_spec ha).1, (findByUserId_spec ha).2⟩),
        creditsFor_zero_of_absent _ _ (fun r hr => by simpa using hnself r hr)]
      ring
  · intro db pk a now db1 rec nb user hids hu hok
    rw [topup, hu] at hok
    injection hok with h
    injection h with hdb hrest
    rw [← hdb]
    show sumBalances (creditUser db user.id a) = sumBalances db + a
    rw [sumBalances_creditUser, countP_id_one db user hids (findByPk_spec hu).1]
    ring

/-- Witness for the amended C2 theorem: a transfer of 3 and a group send of
2 from Alice to Bob, and a top-up of 7 on Alice, at the concrete store. -/
theorem ledger_deltas_and_conservation_witness :
    (getBalance wOut.db alice.id = alice.balance - 3
        ∧ getBalance wOut.db bob.id = bob.balance + 3
        ∧ sumBalances wOut.db = sumBalances demoDb)
      ∧ ((sendGroup demoDb 1 [("BB22B222", 2)] demoNow (fun _ => false) true).committed = true
        ∧ sumBalances (sendGroup demoDb 1 [("BB22B222", 2)] demoNow
            (fun _ => false) true).db = sumBalances demoDb)
      ∧ sumBalances wTopDb = sumBalances demoDb + 7 :=
  ⟨ledger_deltas_and_conservation.1 demoDb 1 "BB22B222" 3 demoNow wOut alice bob
      (by decide) rfl rfl rfl,
    ledger_deltas_and_conservation.2.1 demoDb 1 [("BB22B222", 2)] demoNow
      (fun _ => false) alice (by decide) (by decide) rfl
      (by norm_num [alice, totalOf, List.foldl]) (by decide) (by decide),
    ledger_deltas_and_conservation.2.2 demoDb 1 7 demoNow wTopDb wTopRec
      (alice.balance + 7) alice (by decide) rfl rfl⟩

/-- C2 counterexample: the claim says a committed TopUp of amount `a`
strictly increases the balance sum.  A top-up of 0 commits (no validation)
and leaves the sum exactly unchanged — no strict increase. -/
theorem topup_zero_commits_without_strict_increase :
    (topup demoDb 1 0 demoNow).map (fun r => sumBalances r.1)
        = .ok (sumBalances demoDb)
      ∧ ¬ sumBalances demoDb < sumBalances demoDb := by
  refine ⟨?_, lt_irrefl _⟩
  norm_num [topup, demoDb, alice, bob, findByPk, creditUser, sumBalances, Except.map,
    List.find?]

/-- C10 amended: a group transfer whose recipient list repeats an
identifier k times is accepted — duplicates are neither rejected nor
deduplicated: one record per occurrence is created in input-list order, and
every receiver row other than the sender's is credited once per occurrence
(net credit = the sum of its k amounts).  The sender's row, however, always
ends at its pre-operation balance minus the batch total, because the final
`sender.save` writes the sender copy last — so when the duplicated receiver
is the sender's own identifier, the per-occurrence credits are overwritten
and lost (see the counterexample). -/
theorem group_duplicates_processed_per_occurrence (db : Db) (pk : Nat)
    (rc : List (String × ℚ)) (now : DateTime) (online : String → Bool)
    (sender : Account)
    (hids : (db.users.map Account.id).Nodup)
    (huids : (db.users.map Account.userId).Nodup)
    (hpk : findByPk db pk = some sender)
    (hb : ¬ sender.balance < totalOf rc)
    (hres : ∀ r ∈ rc, (findByUserId db (jsToUpper r.1)).isSome) :
    (sendGroup db pk rc now online true).committed = true
      ∧ (sendGroup db pk rc now online true).records = recsOf db sender rc now
      ∧ (recsOf db sender rc now).length = rc.length
      ∧ (∀ u ∈ db.users, u.userId ≠ sender.userId →
          getBalance (sendGroup db pk rc now online true).db u.id
            = u.balance + creditsFor u.userId rc)
      ∧ getBalance (sendGroup db pk rc now online true).db sender.id
          = sender.balance - totalOf rc := by
  refine ⟨?_, ?_, recsOf_length db sender rc now hres,
    fun u hu hne =>
      sendGroup_commit_balance_other db pk rc now online sender hids huids hpk hb hres
        u hu hne,
    sendGroup_commit_balance_sender db pk rc now online sender hids huids hpk hb hres⟩
  · rw [sendGroup_commit_spec db pk rc now online sender hids huids hpk hb hres]
  · rw [sendGroup_commit_spec db pk rc now online sender hids huids hpk hb hres]

/-- Witness for the amended C10 theorem: Alice group-sends to Bob twice in
one batch (amounts 2 and 3); both occurrences are processed, two records
are created, Bob nets 5 and Alice is debited 5. -/
theorem group_duplicates_processed_per_occurrence_witness :
    (sendGroup demoDb 1 [("BB22B222", 2), ("BB22B222", 3)] demoNow
          (fun _ => false) true).committed = true
      ∧ (sendGroup demoDb 1 [("BB22B222", 2), ("BB22B222", 3)] demoNow
            (fun _ => false) true).records
          = recsOf demoDb alice [("BB22B222", 2), ("BB22B222", 3)] demoNow
      ∧ (recsOf demoDb alice [("BB22B222", 2), ("BB22B222", 3)] demoNow).length
          = ([("BB22B222", 2), ("BB22B222", 3)] : List (String × ℚ)).length
      ∧ getBalance (sendGroup demoDb 1 [("BB22B222", 2), ("BB22B222", 3)] demoNow
            (fun _ => false) true).db bob.id
          = bob.balance + creditsFor bob.userId [("BB22B222", 2), ("BB22B222", 3)]
      ∧ getBalance (sendGroup demoDb 1 [("BB22B222", 2), ("BB22B222", 3)] demoNow
            (fun _ => false) true).db alice.id
          = alice.balance - totalOf [("BB22B222", 2), ("BB22B222", 3)] := by
  have h := group_duplicates_processed_per_occurrence demoDb 1
    [("BB22B222", 2), ("BB22B222", 3)] demoNow (fun _ => false) alice
    (by decide) (by decide) rfl (by norm_num [alice, totalOf, List.foldl]) (by decide)
  exact ⟨h.1, h.2.1, h.2.2.1,
    h.2.2.2.1 bob (show bob ∈ demoDb.users from
      List.mem_cons.2 (Or.inr (List.mem_singleton.2 rfl))) (by decide),
    h.2.2.2.2⟩

/-- C10 counterexample: the claim says the duplicated receiver is credited
once per occurrence.  When the duplicated identifier is the sender's own,
the credits are lost: Core A (balance 100) group-sends 5 twice to itself;
the operation commits, yet the final balance is 90, not the
100 − 10 + 10 = 100 the claim dictates — the per-iteration receiver saves
are overwritten by the final sender save. -/
theorem group_self_duplicates_lose_credits :
    (sendGroup dbSelf 1 [("CC33C333", 5), ("CC33C333", 5)] demoNow
          (fun _ => false) true).committed = true
      ∧ getBalance (sendGroup dbSelf 1 [("CC33C333", 5), ("CC33C333", 5)] demoNow
            (fun _ => false) true).db 1 = 90
      ∧ ((90 : ℚ) ≠ 100 - 10 + 10) := by
  have h := sendGroup_commit_spec dbSelf 1 [("CC33C333", 5), ("CC33C333", 5)] demoNow
    (fun _ => false) coreA (by decide) (by decide) rfl
    (by norm_num [coreA, totalOf, List.foldl]) (by decide)
  rw [h]
  refine ⟨rfl, ?_, by norm_num⟩
  norm_num [getBalance, findByPk, dbSelf, coreA, List.find?, totalOf, List.foldl]

/-! CSV column structure (claim C8). -/

/-- `toList` distributes over string append. -/
theorem toList_append (a b : String) : (a ++ b).toList = a.toList ++ b.toList :=
  String.data_append a b

/-- Character lists free of quotes and delimiters. -/
def plainChars (cs : List Char) : Prop :=
  ∀ c ∈ cs, ¬ c = '"' ∧ ¬ c = ','

theorem plainChars_append {xs ys : List Char}
    (h1 : plainChars xs) (h2 : plainChars ys) : plainChars (xs ++ ys) :=
  fun c hc => (List.mem_append.1 hc).elim (h1 c) (h2 c)

theorem plainChars_of_plainCsv (s : String) (h : plainCsv s = true) :
    plainChars s.toList := by
  intro c hc
  have h2 := List.all_eq_true.1 h c hc
  constructor
  · intro he
    subst he
    simp at h2
  · intro he
    subst he
    simp at h2

/-- The CSV separator counter splits over concatenation, threading the
quote state. -/
theorem sepCount_append (xs ys : List Char) (q : Bool) :
    sepCount (xs ++ ys) q = sepCount xs q + sepCount ys (endState xs q) := by
  induction xs generalizing q with
  | nil => simp [sepCount, endState]
  | cons c cs ih =>
    simp only [List.cons_append, sepCount, endState]
    by_cases h1 : (c == '"') = true
    · simp [h1, ih]
    · have h1f : (c == '"') = false := by
        cases hx : (c == '"')
        · rfl
        · exact absurd hx h1
      by_cases h2 : (c == ',' && !q) = true
      · simp [h1f, h2, ih]
        omega
      · have h2f : (c == ',' && !q) = false := by
          cases hx : (c == ',' && !q)
          · rfl
          · exact absurd hx h2
        simp [h1f, h2f, ih]

/-- The quote state after a concatenation. -/
theorem endState_append (xs ys : List Char) (q : Bool) :
    endState (xs ++ ys) q = endState ys (endState xs q) := by
  induction xs generalizing q with
  | nil => simp [endState]
  | cons c cs ih => simp [endState, ih]

/-- Plain characters add no separators. -/
theorem sepCount_plain (cs : List Char) (q : Bool) (h : plainChars cs) :
    sepCount cs q = 0 := by
  induction cs generalizing q with
  | nil => rfl
  | cons c t ih =>
    obtain ⟨h1, h2⟩ := h c (by simp)
    have hq : (c == '"') = false := by simpa using h1
    have hm : (c == ',') = false := by simpa using h2
    simp only [sepCount, hq, hm, Bool.false_eq_true, if_false, Bool.false_and]
    exact ih q (fun x hx => h x (by simp [hx]))

/-- Quote-free characters keep the quote state. -/
theorem endState_plain (cs : List Char) (q : Bool)
    (h : ∀ c ∈ cs, ¬ c = '"') : endState cs q = q := by
  induction cs generalizing q with
  | nil => rfl
  | cons c t ih =>
    have hq : (c == '"') = false := by simpa using h c (by simp)
    simp only [endState, hq, Bool.false_eq_true, if_false]
    exact ih q (fun x hx => h x (by simp [hx]))

/-- The quote-doubled body of an escaped field contributes no separators and
stays inside quotes. -/
theorem escBody_props (cs : List Char) :
    sepCount (cs.foldr
        (fun c acc => if c == '"' then '"' :: '"' :: acc else c :: acc) []) true = 0
      ∧ endState (cs.foldr
          (fun c acc => if c == '"' then '"' :: '"' :: acc else c :: acc) []) true
        = true := by
  induction cs with
  | nil => exact ⟨rfl, rfl⟩
  | cons c t ih =>
    simp only [List.foldr_cons]
    cases hc : (c == '"')
    · simp only [Bool.false_eq_true, if_false, sepCount, endState, hc]
      cases hcm : (c == ',' && !true)
      · simpa [hcm] using ih
      · simp at hcm
    · simp only [if_pos rfl, sepCount, endState]
      simpa using ih

/-- An escaped field reads as a single column: no separators, and the
parser leaves it outside quotes. -/
theorem csvEscape_props (s : String) :
    sepCount (csvEscape s).toList false = 0
      ∧ endState (csvEscape s).toList false = false := by
  have hshape : (csvEscape s).toList
      = '"' :: (s.toList.foldr
          (fun c acc => if c == '"' then '"' :: '"' :: acc else c :: acc) [] ++ ['"']) := by
    show (("\"" ++ escQuotes s) ++ "\"").toList = _
    rw [toList_append, toList_append]
    rfl
  rw [hshape]
  obtain ⟨h1, h2⟩ := escBody_props s.toList
  constructor
  · simp [sepCount, sepCount_append, h2]
    simpa using h1
  · simp [endState, endState_append]
    simpa using h2

/-- Decimal digit characters are plain. -/
theorem digitChar_mem (n : Nat) :
    digitChar n ∈ ['0', '1', '2', '3', '4', '5', '6', '7', '8', '9'] := by
  unfold digitChar
  split <;> decide

theorem digitChar_plain (n : Nat) : ¬ digitChar n = '"' ∧ ¬ digitChar n = ',' := by
  have hm := digitChar_mem n
  simp only [List.mem_cons, List.not_mem_nil, or_false] at hm
  rcases hm with h|h|h|h|h|h|h|h|h|h <;> rw [h] <;> exact ⟨by decide, by decide⟩

theorem natDigits_plain (fuel n : Nat) : plainChars (natDigits fuel n) := by
  induction fuel generalizing n with
  | zero => intro c hc; cases hc
  | succ f ih =>
    intro c hc
    rw [natDigits] at hc
    by_cases h : n < 10
    · rw [if_pos h] at hc
      simp only [List.mem_singleton] at hc
      subst hc
      exact digitChar_plain n
    · rw [if_neg h] at hc
      rcases List.mem_append.1 hc with h1 | h1
      · exact ih (n / 10) c h1
      · simp only [List.mem_singleton] at h1
        subst h1
        exact digitChar_plain (n % 10)

theorem natToStr_plain (n : Nat) : plainChars (natToStr n).toList :=
  natDigits_plain (n + 1) n

theorem pad2_plain (n : Nat) : plainChars (pad2 n).toList := by
  unfold pad2
  by_cases h : n < 10
  · rw [if_pos h, toList_append]
    exact plainChars_append (by intro c hc; simp at hc; subst hc; exact ⟨by decide, by decide⟩)
      (natToStr_plain n)
  · rw [if_neg h]
    exact natToStr_plain n

theorem toFixed2_plain (q : ℚ) : plainChars (toFixed2 q).toList := by
  unfold toFixed2
  have hdot : plainChars (".".toList) := by
    intro c hc
    simp at hc
    subst hc
    exact ⟨by decide, by decide⟩
  have hminus : plainChars ("-".toList) := by
    intro c hc
    simp at hc
    subst hc
    exact ⟨by decide, by decide⟩
  by_cases h : Int.fdiv (q * 100 + 1 / 2).num ((q * 100 + 1 / 2).den : Int) < 0
  · rw [if_pos h, toList_append, toList_append, toList_append]
    exact plainChars_append (plainChars_append (plainChars_append hminus
      (natToStr_plain _)) hdot) (pad2_plain _)
  · rw [if_neg h, toList_append, toList_append]
    exact plainChars_append (plainChars_append (natToStr_plain _) hdot) (pad2_plain _)

/-- The en-IN date rendering contributes exactly one (unquoted) comma. -/
theorem formatEnIN_props (d : DateTime) :
    sepCount (formatEnIN d).toList false = 1
      ∧ endState (formatEnIN d).toList false = false := by
  unfold formatEnIN
  have hslash : plainChars ("/".toList) := by
    intro c hc; simp at hc; subst hc; exact ⟨by decide, by decide⟩
  have hcolon : plainChars (":".toList) := by
    intro c hc; simp at hc; subst hc; exact ⟨by decide, by decide⟩
  have hspace : plainChars (" ".toList) := by
    intro c hc; simp at hc; subst hc; exact ⟨by decide, by decide⟩
  have hampm : plainChars ((if d.hour < 12 then "am" else "pm").toList) := by
    by_cases h : d.hour < 12
    · rw [if_pos h]; intro c hc; simp at hc; rcases hc with rfl | rfl <;>
        exact ⟨by decide, by decide⟩
    · rw [if_neg h]; intro c hc; simp at hc; rcases hc with rfl | rfl <;>
        exact ⟨by decide, by decide⟩
  have hA : plainChars ((pad2 d.day ++ "/" ++ pad2 d.month ++ "/"
      ++ natToStr d.year).toList) := by
    rw [toList_append, toList_append, toList_append]
    exact plainChars_append (plainChars_append (plainChars_append
      (plainChars_append (pad2_plain _) hslash) (pad2_plain _)) hslash)
      (natToStr_plain _)
  have hB : plainChars ((pad2 (if d.hour % 12 == 0 then 12 else d.hour % 12) ++ ":"
      ++ pad2 d.minute ++ ":" ++ pad2 d.second ++ " "
      ++ (if d.hour < 12 then "am" else "pm")).toList) := by
    rw [toList_append, toList_append, toList_append, toList_append, toList_append]
    exact plainChars_append (plainChars_append (plainChars_append (plainChars_append
      (plainChars_append (plainChars_append (pad2_plain _) hcolon) (pad2_plain _))
      hcolon) (pad2_plain _)) hspace) hampm
  have hnoq : ∀ cs, plainChars cs → ∀ c ∈ cs, ¬ c = '"' := fun cs h c hc => (h c hc).1
  constructor
  · rw [show (pad2 d.day ++ "/" ++ pad2 d.month ++ "/" ++ natToStr d.year ++ ", "
        ++ pad2 (if d.hour % 12 == 0 then 12 else d.hour % 12) ++ ":" ++ pad2 d.minute
        ++ ":" ++ pad2 d.second ++ " " ++ (if d.hour < 12 then "am" else "pm"))
        = ((pad2 d.day ++ "/" ++ pad2 d.month ++ "/" ++ natToStr d.year) ++ ", ")
          ++ (pad2 (if d.hour % 12 == 0 then 12 else d.hour % 12) ++ ":" ++ pad2 d.minute
            ++ ":" ++ pad2 d.second ++ " " ++ (if d.hour < 12 then "am" else "pm"))
        from by simp [String.append_assoc]]
    rw [toList_append, toList_append, sepCount_append, sepCount_append,
      sepCount_plain _ _ hA, endState_plain _ _ (hnoq _ hA),
      sepCount_plain _ _ hB]
    rfl
  · rw [show (pad2 d.day ++ "/" ++ pad2 d.month ++ "/" ++ natToStr d.year ++ ", "
        ++ pad2 (if d.hour % 12 == 0 then 12 else d.hour % 12) ++ ":" ++ pad2 d.minute
        ++ ":" ++ pad2 d.second ++ " " ++ (if d.hour < 12 then "am" else "pm"))
        = ((pad2 d.day ++ "/" ++ pad2 d.month ++ "/" ++ natToStr d.year) ++ ", ")
          ++ (pad2 (if d.hour % 12 == 0 then 12 else d.hour % 12) ++ ":" ++ pad2 d.minute
            ++ ":" ++ pad2 d.second ++ " " ++ (if d.hour < 12 then "am" else "pm"))
        from by simp [String.append_assoc]]
    rw [toList_append, toList_append, endState_append, endState_append,
      endState_plain _ _ (hnoq _ hA)]
    rw [show endState ", ".toList false = false from rfl]
    exact endState_plain _ _ (hnoq _ hB)

/-- Boolean check implying plainness. -/
theorem plainChars_decider (cs : List Char)
    (h : (cs.all (fun c => !(c == '"') && !(c == ','))) = true) : plainChars cs := by
  intro c hc
  have h2 := List.all_eq_true.1 h c hc
  simp at h2
  exact ⟨h2.1, h2.2⟩

/-- A download row with a one-comma date field, an escaped counterparty,
plain type/amount fields and a counterparty-identifier field contributing
`k` unquoted commas parses into `7 + k` columns. -/
theorem row_shape_fieldCount (date ty cp cid amt bc : String) (k : Nat)
    (hdate1 : sepCount date.toList false = 1)
    (hdate2 : endState date.toList false = false)
    (hty : plainChars ty.toList)
    (hcid1 : sepCount cid.toList false = k)
    (hcid2 : endState cid.toList false = false)
    (hamt : plainChars amt.toList) (hbc : plainChars bc.toList) :
    csvFieldCount (date ++ "," ++ ty ++ "," ++ csvEscape cp ++ "," ++ cid
      ++ ",₹" ++ amt ++ ",₹" ++ bc) = 7 + k := by
  obtain ⟨hesc1, hesc2⟩ := csvEscape_props cp
  have hty1 : ∀ q, sepCount ty.toList q = 0 := fun q => sepCount_plain _ q hty
  have hty2 : ∀ q, endState ty.toList q = q :=
    fun q => endState_plain _ q (fun c hc => (hty c hc).1)
  have hamt1 : ∀ q, sepCount amt.toList q = 0 := fun q => sepCount_plain _ q hamt
  have hamt2 : ∀ q, endState amt.toList q = q :=
    fun q => endState_plain _ q (fun c hc => (hamt c hc).1)
  have hbc1 : ∀ q, sepCount bc.toList q = 0 := fun q => sepCount_plain _ q hbc
  have hcomma1 : sepCount (",".toList) false = 1 := rfl
  have hcomma2 : endState (",".toList) false = false := rfl
  have hcr1 : sepCount (",₹".toList) false = 1 := rfl
  have hcr2 : endState (",₹".toList) false = false := rfl
  unfold csvFieldCount
  simp only [toList_append, sepCount_append, endState_append, hdate1, hdate2,
    hcomma1, hcomma2, hesc1, hesc2, hcr1, hcr2, hty1, hty2, hcid1, hcid2,
    hamt1, hamt2, hbc1]
  omega

/-- C8 amended: the export is the header plus one generated row per record,
and the counterparty-name field is escaped per standard CSV quoting — but it
is the only escaped field.  The date field always embeds one unquoted comma
(the en-IN rendering), so every data row whose identifier fields are
comma/quote-free parses into 7 columns, one more than the header's 6;
identifier fields containing commas widen rows further. -/
theorem csv_rows_misaligned_with_header :
    csvFieldCount csvHeaderLine = 6
      ∧ (∀ (viewer : Account) (txs : List TxRecord),
          (txs.map (csvRow viewer)).length = txs.length)
      ∧ (∀ (viewer : Account) (tx : TxRecord), plainCsv tx.senderUserId = true →
          plainCsv tx.receiverUserId = true →
          csvFieldCount (csvRow viewer tx) = 7) := by
  refine ⟨by decide, fun viewer txs => List.length_map txs (csvRow viewer), ?_⟩
  intro viewer tx h1 h2
  obtain ⟨hd1, hd2⟩ := formatEnIN_props tx.createdAt
  have hplus : plainChars ("+".toList) := plainChars_decider _ (by decide)
  have hminus : plainChars ("-".toList) := plainChars_decider _ (by decide)
  have hamt := toFixed2_plain tx.amount
  have hbcp : plainChars (("+" ++ toFixed2 tx.amount).toList) := by
    rw [toList_append]
    exact plainChars_append hplus hamt
  have hbcm : plainChars (("-" ++ toFixed2 tx.amount).toList) := by
    rw [toList_append]
    exact plainChars_append hminus hamt
  have hzero : ∀ s : String, plainChars s.toList →
      sepCount s.toList false = 0 ∧ endState s.toList false = false :=
    fun s hp => ⟨sepCount_plain _ _ hp, endState_plain _ _ (fun c hc => (hp c hc).1)⟩
  unfold csvRow
  by_cases ht : (tx.senderUserId == tx.receiverUserId) = true
  · simp only [ht, if_true]
    exact row_shape_fieldCount _ _ _ _ _ _ 0 hd1 hd2 (plainChars_decider _ (by decide))
      (hzero "SYSTEM" (plainChars_decider _ (by decide))).1
      (hzero "SYSTEM" (plainChars_decider _ (by decide))).2 hamt hbcp
  · have htf : (tx.senderUserId == tx.receiverUserId) = false := by
      cases hx : (tx.senderUserId == tx.receiverUserId)
      · rfl
      · exact absurd hx ht
    by_cases hs : (tx.senderUserId == viewer.userId) = true
    · simp only [htf, hs, Bool.false_eq_true, if_false, if_true]
      exact row_shape_fieldCount _ _ _ _ _ _ 0 hd1 hd2 (plainChars_decider _ (by decide))
        (hzero _ (plainChars_of_plainCsv _ h2)).1
        (hzero _ (plainChars_of_plainCsv _ h2)).2 hamt hbcm
    · have hsf : (tx.senderUserId == viewer.userId) = false := by
        cases hx : (tx.senderUserId == viewer.userId)
        · rfl
        · exact absurd hx hs
      simp only [htf, hsf, Bool.false_eq_true, if_false]
      exact row_shape_fieldCount _ _ _ _ _ _ 0 hd1 hd2 (plainChars_decider _ (by decide))
        (hzero _ (plainChars_of_plainCsv _ h1)).1
        (hzero _ (plainChars_of_plainCsv _ h1)).2 hamt hbcp

/-- Witness for the amended C8 theorem at a concrete record with plain
identifier fields. -/
theorem csv_rows_misaligned_with_header_witness :
    csvFieldCount csvHeaderLine = 6
      ∧ (([sentTx].map (csvRow bob)).length = [sentTx].length)
      ∧ csvFieldCount (csvRow bob sentTx) = 7 :=
  ⟨csv_rows_misaligned_with_header.1,
    csv_rows_misaligned_with_header.2.1 bob [sentTx],
    csv_rows_misaligned_with_header.2.2 bob sentTx (by decide) (by decide)⟩

/-- C8 counterexample: the claim says every field with an embedded delimiter
is escaped so rows parse back into the header's column count.  A record
whose counterparty identifier contains a comma is emitted verbatim — the
row parses into 8 columns (the en-IN date alone already adds a 7th), while
the header has 6. -/
theorem csv_comma_in_id_breaks_column_count :
    csvFieldCount (csvRow alice commaTx) = 8
      ∧ csvFieldCount csvHeaderLine = 6
      ∧ (8 : Nat) ≠ 6 := by
  refine ⟨?_, by decide, by decide⟩
  obtain ⟨hd1, hd2⟩ := formatEnIN_props commaTx.createdAt
  have h1 : (commaTx.senderUserId == commaTx.receiverUserId) = false := by decide
  have h2 : (commaTx.senderUserId == alice.userId) = true := by decide
  have hamt := toFixed2_plain commaTx.amount
  have hbcm : plainChars (("-" ++ toFixed2 commaTx.amount).toList) := by
    rw [toList_append]
    exact plainChars_append (plainChars_decider _ (by decide)) hamt
  unfold csvRow
  simp only [h1, h2, Bool.false_eq_true, if_false, if_true]
  exact row_shape_fieldCount _ _ _ _ _ _ 1 hd1 hd2 (plainChars_decider _ (by decide))
    (by decide) (by decide) hamt hbcm

end ShaastraWallet
